import Mathlib

/-!
Shallow embedding of the stack-based virtual machine implemented in
`src/vmma18/src/main.rs` (the canonical second iteration of the repository),
together with theorems checking the specification's claims about it.

Modelling conventions:
* `u32` words are `Nat` values `< 2^32`; every value written into RAM goes
  through `toU32`, and reads are reinterpreted with `toI32` exactly where the
  Rust source casts `as i32`.
* `i16` registers (`sp`, `pc`) are `Int` values; every arithmetic operation the
  source performs on an `i16` is wrapped with `i16wrap` (two's-complement
  truncation to 16 bits), matching release-mode wrapping semantics.
* Rust `Err(...)` results and Rust panics are both modelled as `Except VMErr`;
  the `VMErr` constructors record which of the two a condition is, since an
  `Err` is surfaced to the caller of `run` while a panic aborts the process.
* Arithmetic overflow of `+`, `-`, `*` and shift amounts follow release-mode
  (wrapping / masking) semantics; division by zero and division overflow panic
  in every build configuration and are modelled as panics.
* The input stream is a list of bytes, the output stream is the list of bytes
  written so far.
-/

set_option maxRecDepth 40000

namespace VMMA

/-- Decidable equality for `Except`, so concrete machine results can be
checked by `decide`. -/
instance exceptDecEq {ε α : Type} [DecidableEq ε] [DecidableEq α] :
    DecidableEq (Except ε α) := fun a b =>
  match a, b with
  | .ok x, .ok y =>
    if h : x = y then .isTrue (by rw [h]) else .isFalse (by simp [h])
  | .error x, .error y =>
    if h : x = y then .isTrue (by rw [h]) else .isFalse (by simp [h])
  | .ok _, .error _ => .isFalse (by simp)
  | .error _, .ok _ => .isFalse (by simp)

/-- Error outcomes of the interpreter.  Constructors prefixed `err` model Rust
`Err(...)` values that the caller of `load`/`run` receives; constructors
prefixed `panic` model Rust panics (out-of-bounds indexing, division by zero,
`panic!` on invalid encodings, `clamp` with `min > max`, `String::truncate`
off a char boundary), which abort the process instead of being returned. -/
inductive VMErr where
  | errBadProgram
  | errOverflow
  | errParse
  | panicIndex
  | panicDivZero
  | panicArithOverflow
  | panicInvalid
  | panicClamp
  | panicBoundary
  deriving Repr, DecidableEq

/-- `true` exactly for the constructors modelling Rust panics: those abort the
process and are never surfaced as an error result to the caller. -/
def VMErr.isPanic : VMErr → Bool
  | .panicIndex | .panicDivZero | .panicArithOverflow
  | .panicInvalid | .panicClamp | .panicBoundary => true
  | _ => false

/-- Top-level instruction class based on the opcode nibble (`enum Opcode`). -/
inductive Opcode where
  | Miscellaneous
  | BinaryArithmetic
  | UnaryArithmetic
  | Pop
  | StringPrint
  | Goto
  | Call
  | Return
  | UnaryIf
  | BinaryIf
  | Dup
  | Print
  | Dump
  | Push
  | Unknown
  deriving Repr, DecidableEq

/-- `Opcode::from_integer`: convert the top 4 bits of an instruction word. -/
def Opcode.fromInteger (n : Nat) : Opcode :=
  match n with
  | 0x0 => .Miscellaneous
  | 0x1 => .Pop
  | 0x2 => .BinaryArithmetic
  | 0x3 => .UnaryArithmetic
  | 0x4 => .StringPrint
  | 0x5 => .Call
  | 0x6 => .Return
  | 0x7 => .Goto
  | 0x8 => .BinaryIf
  | 0x9 => .UnaryIf
  | 0xC => .Dup
  | 0xD => .Print
  | 0xE => .Dump
  | 0xF => .Push
  | _ => .Unknown

/-- `enum Instruction` of the source: decoded instruction variants with their
operands (already sign-extended / masked exactly as `Machine::fetch` does). -/
inductive Instruction where
  | Exit (code : Nat)
  | Swap (a b : Int)
  | Nop
  | Input
  | Stinput (maxChars : Nat)
  | Debug (d : Nat)
  | Pop (offset : Nat)
  | Add
  | Subtract
  | Multiply
  | Divide
  | Remainder
  | And
  | Or
  | Xor
  | LogicalLeftShift
  | LogicalRightShift
  | ArithmeticRightShift
  | Negate
  | Not
  | Stprint (offset : Int)
  | Goto (offset : Int)
  | Call (offset : Int)
  | Return (offset : Nat)
  | BinaryIf (cond : Nat) (offset : Int)
  | EqZero (offset : Int)
  | NeZero (offset : Int)
  | LtZero (offset : Int)
  | GeZero (offset : Int)
  | Dup (offset : Nat)
  | Dump
  | Print (offset : Int)
  | Push (v : Nat)
  deriving Repr, DecidableEq

/-- `struct Machine`: 1024 words of RAM (`[u32; 1024]`), the `i16` stack
pointer and program counter, and the two byte streams. -/
structure Machine where
  ram : List Nat
  sp : Int
  pc : Int
  input : List Nat
  output : List Nat
  deriving Repr, DecidableEq

/-- Two's-complement truncation of an integer to 16 bits (`as i16`, and the
wrapping behaviour of release-mode `i16` arithmetic). -/
def i16wrap (x : Int) : Int := (x + 32768) % 65536 - 32768

/-- Reinterpret a `u32` word as an `i32` (`as i32`). -/
def toI32 (w : Nat) : Int :=
  if w % 4294967296 < 2147483648 then (w % 4294967296 : Nat)
  else (w % 4294967296 : Nat) - 4294967296

/-- Reinterpret an integer as a `u32` bit pattern (`as u32`; also the
sign-extending cast `i16 as u32`). -/
def toU32 (x : Int) : Nat := (x % 4294967296).toNat

/-- Two's-complement wrap of an integer into the `i32` range (release-mode
wrapping arithmetic on `i32`). -/
def i32wrap (x : Int) : Int := (x + 2147483648) % 4294967296 - 2147483648

/-- `self.ram[i]` for an index cast `as usize`: a negative `i16` becomes a huge
`usize`, so the access panics unless `0 ≤ i < ram.length`. -/
def ramGet (ram : List Nat) (i : Int) : Except VMErr Nat :=
  if 0 ≤ i ∧ i.toNat < ram.length then .ok (ram.getD i.toNat 0)
  else .error .panicIndex

/-- `self.ram[i] = v` with the same bounds/panic behaviour as `ramGet`. -/
def ramSet (ram : List Nat) (i : Int) (v : Nat) : Except VMErr (List Nat) :=
  if 0 ≤ i ∧ i.toNat < ram.length then .ok (ram.set i.toNat v)
  else .error .panicIndex

/-- `self.ram.get(i).copied().unwrap_or(0)`: out-of-range reads yield 0. -/
def ramGetD (ram : List Nat) (i : Int) : Nat :=
  if 0 ≤ i ∧ i.toNat < ram.length then ram.getD i.toNat 0 else 0

/-- `Machine::step`: increment the program counter. -/
def Machine.step (m : Machine) : Machine :=
  { m with pc := i16wrap (m.pc + 1) }

/-- `Machine::push`: fail with the stack-overflow `Err` if `sp <= 0`,
otherwise decrement `sp` and write the word at the new `sp`.  (Given the
guard, the `i16` decrement cannot wrap.) -/
def Machine.push (m : Machine) (word : Nat) : Except VMErr Machine :=
  if m.sp ≤ 0 then .error .errOverflow
  else
    match ramSet m.ram (m.sp - 1) word with
    | .error e => .error e
    | .ok ram' => .ok { m with sp := m.sp - 1, ram := ram' }

/-- `x.clamp(lo, hi)` on integers: Rust's `clamp` panics when `lo > hi`. -/
def rustClamp (x lo hi : Int) : Except VMErr Int :=
  if lo > hi then .error .panicClamp
  else .ok (max lo (min x hi))

/-- The closure `|l, r| l + r` of the `Add` arm (release-mode wrapping). -/
def opAdd (l r : Int) : Except VMErr Int := .ok (i32wrap (l + r))

/-- The closure `|l, r| l - r` of the `Subtract` arm. -/
def opSub (l r : Int) : Except VMErr Int := .ok (i32wrap (l - r))

/-- The closure `|l, r| l * r` of the `Multiply` arm. -/
def opMul (l r : Int) : Except VMErr Int := .ok (i32wrap (l * r))

/-- The closure `|l, r| l / r` of the `Divide` arm: `i32` division panics on a
zero divisor and on `i32::MIN / -1` in every build configuration; otherwise it
truncates toward zero. -/
def opDiv (l r : Int) : Except VMErr Int :=
  if r = 0 then .error .panicDivZero
  else if l = -2147483648 ∧ r = -1 then .error .panicArithOverflow
  else .ok (Int.tdiv l r)

/-- The closure `|l, r| l % r` of the `Remainder` arm: same panics as
division; otherwise the remainder takes the sign of the dividend. -/
def opRem (l r : Int) : Except VMErr Int :=
  if r = 0 then .error .panicDivZero
  else if l = -2147483648 ∧ r = -1 then .error .panicArithOverflow
  else .ok (Int.tmod l r)

/-- The closure `|l, r| l & r`: bitwise and on the `i32` bit patterns. -/
def opAnd (l r : Int) : Except VMErr Int := .ok (toI32 (Nat.land (toU32 l) (toU32 r)))

/-- The closure `|l, r| l | r`: bitwise or on the `i32` bit patterns. -/
def opOr (l r : Int) : Except VMErr Int := .ok (toI32 (Nat.lor (toU32 l) (toU32 r)))

/-- The closure `|l, r| l ^ r`: bitwise xor on the `i32` bit patterns. -/
def opXor (l r : Int) : Except VMErr Int := .ok (toI32 (Nat.xor (toU32 l) (toU32 r)))

/-- The closure `|l, r| l << r`: in release mode the shift amount is the low
five bits of `r`'s bit pattern, and shifted-out value bits are discarded. -/
def opShl (l r : Int) : Except VMErr Int :=
  .ok (toI32 (toU32 l * 2 ^ (toU32 r % 32) % 4294967296))

/-- The closures `|l, r| l >> r` (LogicalRightShift arm) and
`|l, r| l as i32 >> r` (ArithmeticRightShift arm): `l` is an `i32` in both, so
both arms perform the same arithmetic shift (floor division by a power of
two), with the amount masked as in `opShl`. -/
def opShr (l r : Int) : Except VMErr Int :=
  .ok (l / 2 ^ (toU32 r % 32))

/-- The closure `|x| !x` of the `Not` arm: bitwise complement of an `i32`. -/
def opNot (x : Int) : Int := -x - 1

/-- The closure `|x| x.wrapping_neg()` of the `Negate` arm. -/
def opNeg (x : Int) : Int := i32wrap (-x)

/-- `Machine::binary_op`: pop the right operand (at `sp`), pop the left
operand (at `sp+1`), apply the operation on the operands reinterpreted as
`i32`, push the result; net effect `sp` increases by one.  Every RAM index is
bounds-checked, mirroring the panicking `self.ram[...]` accesses. -/
def Machine.binaryOp (m : Machine) (op : Int → Int → Except VMErr Int) :
    Except VMErr Machine :=
  match ramGet m.ram m.sp with
  | .error e => .error e
  | .ok r =>
    let sp1 := i16wrap (m.sp + 1)
    match ramGet m.ram sp1 with
    | .error e => .error e
    | .ok l =>
      let sp2 := i16wrap (sp1 + 1)
      match op (toI32 l) (toI32 r) with
      | .error e => .error e
      | .ok result =>
        let sp3 := i16wrap (sp2 - 1)
        match ramSet m.ram sp3 (toU32 result) with
        | .error e => .error e
        | .ok ram' => .ok { m with sp := sp3, ram := ram' }

/-- `Machine::unary_op`: pop one operand, push the result; `sp` unchanged. -/
def Machine.unaryOp (m : Machine) (op : Int → Int) : Except VMErr Machine :=
  match ramGet m.ram m.sp with
  | .error e => .error e
  | .ok v =>
    let sp1 := i16wrap (m.sp + 1)
    let result := op (toI32 v)
    let sp2 := i16wrap (sp1 - 1)
    match ramSet m.ram sp2 (toU32 result) with
    | .error e => .error e
    | .ok ram' => .ok { m with sp := sp2, ram := ram' }

/-- `Machine::unary_if`: peek the word at `sp` (panicking if out of range);
when the condition holds on its `i32` reinterpretation, add the word offset
`(offset >> 2) as i16` to `pc` and report that the jump occurred. -/
def Machine.unaryIf (m : Machine) (offset : Int) (cond : Int → Bool) :
    Except VMErr (Bool × Machine) :=
  match ramGet m.ram m.sp with
  | .error e => .error e
  | .ok v =>
    if cond (toI32 v) then
      .ok (true, { m with pc := i16wrap (m.pc + i16wrap (offset / 4)) })
    else
      .ok (false, m)

/-- `Machine::read_line`: take bytes from the input stream until a newline or
null byte (dropped) or end of stream, returning the line and the rest of the
stream.  End of stream with nothing read yields an empty line, not an error. -/
def readLine (input : List Nat) : List Nat × List Nat :=
  match input with
  | [] => ([], [])
  | b :: rest =>
    if b = 10 ∨ b = 0 then ([], rest)
    else
      let p := readLine rest
      (b :: p.1, p.2)

/-- `char::is_whitespace` for the characters a read line can contain (each
input byte becomes the char with that code): the ASCII whitespace characters
plus U+0085 and U+00A0. -/
def isWhitespaceByte (b : Nat) : Bool :=
  b = 9 ∨ b = 10 ∨ b = 11 ∨ b = 12 ∨ b = 13 ∨ b = 32 ∨ b = 133 ∨ b = 160

/-- `str::trim`: remove leading and trailing whitespace characters. -/
def trimBytes (s : List Nat) : List Nat :=
  ((s.dropWhile isWhitespaceByte).reverse.dropWhile isWhitespaceByte).reverse

/-- Value of a digit character under a radix, as in `from_str_radix`. -/
def digitValue (radix : Nat) (c : Nat) : Option Nat :=
  let d :=
    if 48 ≤ c ∧ c ≤ 57 then some (c - 48)
    else if 97 ≤ c ∧ c ≤ 122 then some (c - 87)
    else if 65 ≤ c ∧ c ≤ 90 then some (c - 55)
    else none
  match d with
  | some v => if v < radix then some v else none
  | none => none

/-- Digit-accumulation loop of `from_str_radix`. -/
def parseDigitsGo (radix : Nat) : List Nat → Nat → Option Nat
  | [], acc => some acc
  | c :: cs, acc =>
    match digitValue radix c with
    | none => none
    | some v => parseDigitsGo radix cs (acc * radix + v)

/-- Accumulate the digits of `from_str_radix`; `none` when the digit string is
empty or contains an invalid character. -/
def parseDigits (radix : Nat) : List Nat → Option Nat
  | [] => none
  | ds => parseDigitsGo radix ds 0

/-- `i32::from_str_radix`: optional sign, at least one digit, and an overflow
check against the `i32` range; any failure is the parse `Err` that the Input
arm maps to a run-level error. -/
def fromStrRadix (radix : Nat) (s : List Nat) : Except VMErr Int :=
  let p : Bool × List Nat :=
    match s with
    | 43 :: rest => (false, rest)
    | 45 :: rest => (true, rest)
    | _ => (false, s)
  match parseDigits radix p.2 with
  | none => .error .errParse
  | some n =>
    if p.1 then
      if n ≤ 2147483648 then .ok (-(n : Int)) else .error .errParse
    else
      if n < 2147483648 then .ok (n : Int) else .error .errParse

/-- UTF-8 byte length of a char built from one input byte (`0..=0xFF`):
one byte below 0x80, two bytes otherwise. -/
def utf8Len (c : Nat) : Nat := if c < 128 then 1 else 2

/-- UTF-8 encoding of a string whose chars all lie in `0..=0xFF` (which is the
case for every string built by `read_line`): this is what `String::len`,
`String::truncate` and `str::as_bytes` operate on. -/
def utf8Bytes (cs : List Nat) : List Nat :=
  cs.flatMap fun c => if c < 128 then [c] else [192 + c / 64, 128 + c % 64]

/-- Truncation loop of `String::truncate`: keep chars while their UTF-8 bytes
fit; cutting in the middle of a char is the boundary panic. -/
def truncGo : List Nat → Nat → Except VMErr (List Nat)
  | _, 0 => .ok []
  | [], _ => .ok []
  | c :: cs, n =>
    if utf8Len c ≤ n then
      match truncGo cs (n - utf8Len c) with
      | .error e => .error e
      | .ok cs' => .ok (c :: cs')
    else .error .panicBoundary

/-- `String::truncate(n)`: no-op when `n` is at least the byte length;
otherwise keep the first `n` bytes, panicking if `n` is not on a char
boundary. -/
def truncateChars (cs : List Nat) (n : Nat) : Except VMErr (List Nat) :=
  if (utf8Bytes cs).length ≤ n then .ok cs else truncGo cs n

/-- The padding loop of Stinput: push the sentinel char `0x01` (one UTF-8
byte each time) until the byte length is a multiple of 3. -/
def stinPad (cs : List Nat) : List Nat :=
  if (utf8Bytes cs).length % 3 = 0 then cs
  else if (utf8Bytes cs).length % 3 = 1 then cs ++ [1, 1]
  else cs ++ [1]

/-- Split a list into chunks of three from the front (helper for
`rchunks(3)`; the byte list always has length a multiple of 3 here). -/
def chunks3 : List Nat → List (List Nat)
  | a :: b :: c :: rest => [a, b, c] :: chunks3 rest
  | [] => []
  | rest => [rest]

/-- `slice::rchunks(3)`: chunks of three taken from the end of the byte list,
yielded last-chunk-first. -/
def rchunks3 (bs : List Nat) : List (List Nat) :=
  (chunks3 bs.reverse).map List.reverse

/-- Word packed from one 3-byte chunk by the Stinput arm:
`chunk[2] << 16 | chunk[1] << 8 | chunk[0]`, with the continuation flag
`0x0100_0000` on every chunk except the first one pushed. -/
def chunkWord (i : Nat) (chunk : List Nat) : Nat :=
  chunk.getD 2 0 * 65536 + chunk.getD 1 0 * 256 + chunk.getD 0 0 +
    if i = 0 then 0 else 16777216

/-- The sequence of words the Stinput arm pushes for a padded byte list. -/
def stinWords (bs : List Nat) : List Nat :=
  (rchunks3 bs).enum.map fun p => chunkWord p.1 p.2

/-- Push a list of words in order, propagating the first failure (the
`self.push(word)?` loop of the Stinput arm). -/
def pushAll (m : Machine) : List Nat → Except VMErr Machine
  | [] => .ok m
  | w :: ws =>
    match m.push w with
    | .error e => .error e
    | .ok m' => pushAll m' ws

/-- The Stprint walk: read the word at `idx` (panicking out of range), stop on
a zero word, emit its four little-endian bytes skipping those equal to the
sentinel 1, stop when the top byte is 0 or `idx` is 0, else continue at
`idx + 1`.  `fuel` only bounds the recursion; it is chosen large enough
(`ram.length + 1`) that it can never run out before an exit condition. -/
def stprintGo (ram : List Nat) : Nat → Int → List Nat → Except VMErr (List Nat)
  | 0, _, _ => .error .panicIndex
  | fuel + 1, idx, out =>
    match ramGet ram idx with
    | .error e => .error e
    | .ok cur =>
      if cur = 0 then .ok out
      else
        let bytes := [cur % 256, cur / 256 % 256, cur / 65536 % 256, cur / 16777216 % 256]
        let out' := out ++ bytes.filter (· ≠ 1)
        if cur / 16777216 % 256 = 0 ∨ idx = 0 then .ok out'
        else stprintGo ram fuel (idx + 1) out'

/-- Bytes of the lower-case hexadecimal/binary/octal/decimal digits that the
formatting macros produce for a `Nat` (minimal width, no padding). -/
def fmtDigits (base n : Nat) : List Nat :=
  (Nat.toDigits base n).map Char.toNat

/-- Bytes of `format!("{}", x)` for an `i32` value: signed decimal. -/
def decBytes (x : Int) : List Nat :=
  if x < 0 then 45 :: fmtDigits 10 (-x).toNat else fmtDigits 10 x.toNat

/-- One lower-case hex digit byte. -/
def hexDigit (n : Nat) : Nat := if n < 10 then 48 + n else 87 + n

/-- Bytes of `format!("{:04x}", v)` for a 16-bit pattern. -/
def hex4 (n : Nat) : List Nat :=
  [hexDigit (n / 4096 % 16), hexDigit (n / 256 % 16), hexDigit (n / 16 % 16),
    hexDigit (n % 16)]

/-- Bytes of `format!("{:08x}", v)` for a 32-bit pattern. -/
def hex8 (n : Nat) : List Nat := hex4 (n / 65536 % 65536) ++ hex4 (n % 65536)

/-- The Dump loop: one `addr: value` line per occupied slot from `sp` up to
1023; the address printed is `offset - sp` as a 16-bit pattern.  As in
`stprintGo`, `fuel` is chosen so it cannot run out before the loop ends. -/
def dumpGo (ram : List Nat) (sp : Int) : Nat → Int → Except VMErr (List Nat)
  | 0, _ => .ok []
  | fuel + 1, i =>
    if i ≥ 1024 then .ok []
    else
      match ramGet ram i with
      | .error e => .error e
      | .ok v =>
        match dumpGo ram sp fuel (i + 1) with
        | .error e => .error e
        | .ok rest =>
          .ok (hex4 (((i - sp) % 65536).toNat) ++ [58, 32] ++ hex8 v ++ [10] ++ rest)

/-- The pure decoding part of `Machine::fetch`: map a 32-bit word to an
instruction, with invalid encodings being the `panic!` calls of the source.
Field extractions follow the source bit for bit; shifts and masks are written
as division/remainder by powers of two. -/
def decode (inst : Nat) : Except VMErr Instruction :=
  match Opcode.fromInteger (inst / 268435456 % 16) with
  | .Miscellaneous =>
    match inst / 16777216 % 16 with
    | 0x0 => .ok (.Exit (inst % 256))
    | 0x1 => .ok (.Swap ((inst / 4096 % 4096 : Nat) : Int) ((inst % 4096 : Nat) : Int))
    | 0x2 => .ok .Nop
    | 0x4 => .ok .Input
    | 0x5 => .ok (.Stinput (inst % 16777216))
    | 0xF => .ok (.Debug (inst % 16777216))
    | _ => .error .panicInvalid
  | .BinaryArithmetic =>
    match inst / 16777216 % 16 with
    | 0x0 => .ok .Add
    | 0x1 => .ok .Subtract
    | 0x2 => .ok .Multiply
    | 0x3 => .ok .Divide
    | 0x4 => .ok .Remainder
    | 0x5 => .ok .And
    | 0x6 => .ok .Or
    | 0x7 => .ok .Xor
    | 0x8 => .ok .LogicalLeftShift
    | 0x9 => .ok .LogicalRightShift
    | 0xB => .ok .ArithmeticRightShift
    | _ => .error .panicInvalid
  | .UnaryArithmetic =>
    match inst / 16777216 % 16 with
    | 0x0 => .ok .Negate
    | 0x1 => .ok .Not
    | _ => .error .panicInvalid
  | .Pop => .ok (.Pop (inst % 268435456))
  | .Goto =>
    let raw := inst / 4 % 67108864
    .ok (.Goto (if raw / 33554432 % 2 = 1 then (raw : Int) - 67108864 else (raw : Int)))
  | .StringPrint => .ok (.Stprint ((inst % 268435456 : Nat) : Int))
  | .Call =>
    let raw := inst % 67108864
    .ok (.Call (if raw / 33554432 % 2 = 1 then (raw : Int) - 67108864 else (raw : Int)))
  | .Return => .ok (.Return (inst % 67108864))
  | .BinaryIf =>
    let cond := inst / 33554432 % 8
    let raw := inst / 4 % 8388608
    .ok (.BinaryIf cond (if raw / 4194304 % 2 = 1 then (raw : Int) - 8388608 else (raw : Int)))
  | .UnaryIf =>
    let func2 := inst / 33554432 % 4
    let v := inst % 16777216
    let offset : Int := if v / 8388608 = 1 then (v : Int) - 16777216 else (v : Int)
    match func2 with
    | 0 => .ok (.EqZero offset)
    | 1 => .ok (.NeZero offset)
    | 2 => .ok (.LtZero offset)
    | _ => .ok (.GeZero offset)
  | .Dup => .ok (.Dup (inst % 268435456))
  | .Print => .ok (.Print ((inst % 268435456 : Nat) : Int))
  | .Dump => .ok .Dump
  | .Push =>
    let v := inst % 268435456
    .ok (.Push (if v / 134217728 = 1 then v + 4026531840 else v))
  | .Unknown => .error .panicInvalid

/-- `Machine::fetch`: read the word at `pc` (panicking when `pc` is out of
range) and decode it. -/
def Machine.fetch (m : Machine) : Except VMErr Instruction :=
  match ramGet m.ram m.pc with
  | .error e => .error e
  | .ok inst => decode inst

/-- Result of one iteration of the `run` loop: either `Exit` returned the halt
code, or the loop continues with the updated machine (the implicit
`self.step()` already applied for arms that fall through to it). -/
inductive StepResult where
  | halt (code : Nat) (m : Machine)
  | next (m : Machine)
  deriving Repr, DecidableEq

/-- The machine carried by a step result. -/
def StepResult.machine : StepResult → Machine
  | .halt _ m => m
  | .next m => m

/-- The radix dispatch of the Input arm: `strip_prefix("0x")` parses the rest
as hexadecimal, `strip_prefix("0b")` as binary, anything else decimal. -/
def parseInputLine (t : List Nat) : Except VMErr Int :=
  match t with
  | 48 :: 120 :: ds => fromStrRadix 16 ds
  | 48 :: 98 :: ds => fromStrRadix 2 ds
  | _ => fromStrRadix 10 t

/-- A binary arithmetic arm of `Machine::run` followed by the fall-through
`self.step()`. -/
def execBinary (m : Machine) (op : Int → Int → Except VMErr Int) :
    Except VMErr StepResult :=
  match m.binaryOp op with
  | .error e => .error e
  | .ok m' => .ok (.next m'.step)

/-- A unary arithmetic arm of `Machine::run` followed by the fall-through
`self.step()`. -/
def execUnary (m : Machine) (op : Int → Int) : Except VMErr StepResult :=
  match m.unaryOp op with
  | .error e => .error e
  | .ok m' => .ok (.next m'.step)

/-- A UnaryIf arm of `Machine::run`: `continue` when the jump occurred,
otherwise fall through to the implicit `self.step()`. -/
def execUnaryIf (m : Machine) (offset : Int) (cond : Int → Bool) :
    Except VMErr StepResult :=
  match m.unaryIf offset cond with
  | .error e => .error e
  | .ok (true, m') => .ok (.next m')
  | .ok (false, m') => .ok (.next m'.step)

/-- Execute one decoded instruction: the big `match instruction` in
`Machine::run`.  Arms that fall through to the implicit `self.step()` end in
`.step`; the arms that execute `continue` (Goto, Call, Return, taken
conditional branches, and the empty-line path of Stinput) do not. -/
def Machine.exec (m : Machine) (instruction : Instruction) : Except VMErr StepResult :=
  match instruction with
  | .Exit code => .ok (.halt code m)
  | .Swap a b =>
    let fromOffset := i16wrap (a * 16) / 4
    let toOffset := i16wrap (b * 16) / 4
    let f := i16wrap (m.sp + fromOffset / 4)
    let t := i16wrap (m.sp + toOffset / 4)
    match ramGet m.ram f, ramGet m.ram t with
    | .ok vf, .ok vt =>
      .ok (.next ({ m with ram := (m.ram.set f.toNat vt).set t.toNat vf }).step)
    | .error e, _ => .error e
    | _, .error e => .error e
  | .Nop => .ok (.next m.step)
  | .Input =>
    let p := readLine m.input
    let m1 := { m with input := p.2 }
    let t := trimBytes p.1
    match parseInputLine t with
    | .error e => .error e
    | .ok w =>
      match m1.push (toU32 w) with
      | .error e => .error e
      | .ok m2 => .ok (.next m2.step)
  | .Stinput maxChars =>
    let p := readLine m.input
    let m1 := { m with input := p.2 }
    let t := trimBytes p.1
    if t = [] then
      match m1.push 0 with
      | .error e => .error e
      | .ok m2 => .ok (.next m2)
    else
      match truncateChars t maxChars with
      | .error e => .error e
      | .ok t2 =>
        match pushAll m1 (stinWords (utf8Bytes (stinPad t2))) with
        | .error e => .error e
        | .ok m2 => .ok (.next m2.step)
  | .Debug _ =>
    .ok (.next ({ m with output := m.output ++ [68, 101, 98, 117, 103, 10] }).step)
  | .Add => execBinary m opAdd
  | .Subtract => execBinary m opSub
  | .Multiply => execBinary m opMul
  | .Divide => execBinary m opDiv
  | .Remainder => execBinary m opRem
  | .And => execBinary m opAnd
  | .Or => execBinary m opOr
  | .Xor => execBinary m opXor
  | .LogicalLeftShift => execBinary m opShl
  | .LogicalRightShift => execBinary m opShr
  | .ArithmeticRightShift => execBinary m opShr
  | .Not => execUnary m opNot
  | .Negate => execUnary m opNeg
  | .Pop offset =>
    match rustClamp (i16wrap (m.sp + i16wrap ((offset / 4 : Nat) : Int))) 0 1024 with
    | .error e => .error e
    | .ok sp' => .ok (.next ({ m with sp := sp' }).step)
  | .Goto offset =>
    .ok (.next { m with pc := i16wrap (m.pc + i16wrap offset) })
  | .Stprint offset =>
    let idx := i16wrap (m.sp + i16wrap (offset / 4))
    match stprintGo m.ram (m.ram.length + 1) idx [] with
    | .error e => .error e
    | .ok out => .ok (.next ({ m with output := m.output ++ out }).step)
  | .Call offset =>
    match m.push (toU32 (i16wrap (m.pc + 1))) with
    | .error e => .error e
    | .ok m' => .ok (.next { m' with pc := i16wrap (m'.pc + i16wrap (offset / 4)) })
  | .Return offset =>
    let addr := ramGetD m.ram m.sp
    match rustClamp (i16wrap ((offset / 4 : Nat) : Int)) 0 (i16wrap (1024 - m.sp)) with
    | .error e => .error e
    | .ok c =>
      .ok (.next { m with sp := i16wrap (m.sp + 1 + c), pc := i16wrap addr })
  | .BinaryIf cond offset =>
    let right := ramGetD m.ram m.sp
    let left := ramGetD m.ram (i16wrap (m.sp + 1))
    let taken :=
      match cond with
      | 0 => left == right
      | 1 => left != right
      | 2 => decide (left < right)
      | 3 => decide (left > right)
      | 4 => decide (left ≤ right)
      | 5 => decide (left ≥ right)
      | _ => false
    if taken then .ok (.next { m with pc := i16wrap (m.pc + i16wrap offset) })
    else .ok (.next m.step)
  | .EqZero offset => execUnaryIf m offset fun x => x == 0
  | .NeZero offset => execUnaryIf m offset fun x => x != 0
  | .GeZero offset => execUnaryIf m offset fun x => decide (x ≥ 0)
  | .LtZero offset => execUnaryIf m offset fun x => decide (x < 0)
  | .Dup offset =>
    let idx := i16wrap (m.sp + i16wrap ((offset / 4 : Nat) : Int))
    match ramGet m.ram idx with
    | .error e => .error e
    | .ok val =>
      match m.push val with
      | .error e => .error e
      | .ok m' => .ok (.next m'.step)
  | .Print offset =>
    let idx := i16wrap (m.sp + i16wrap (offset / 4))
    match ramGet m.ram idx with
    | .error e => .error e
    | .ok val =>
      let body : List Nat :=
        if offset % 4 = 0 then decBytes (toI32 val)
        else if offset % 4 = 1 then [48, 120] ++ fmtDigits 16 val
        else if offset % 4 = 2 then [48, 98] ++ fmtDigits 2 val
        else [48, 111] ++ fmtDigits 8 val
      .ok (.next ({ m with output := m.output ++ body ++ [10] }).step)
  | .Dump =>
    if m.sp = 1024 then .ok (.next m.step)
    else
      match dumpGo m.ram m.sp (m.ram.length + 1) m.sp with
      | .error e => .error e
      | .ok out => .ok (.next ({ m with output := m.output ++ out }).step)
  | .Push v =>
    match m.push v with
    | .error e => .error e
    | .ok m' => .ok (.next m'.step)

/-- One iteration of the `Machine::run` loop: fetch, then execute. -/
def Machine.runStep (m : Machine) : Except VMErr StepResult :=
  match m.fetch with
  | .error e => .error e
  | .ok instruction => m.exec instruction

/-- The `Machine::run` loop, bounded by `fuel` iterations; `none` when the
fuel runs out before the machine halts (the source loop has no such bound, it
simply keeps iterating). -/
def Machine.run (m : Machine) : Nat → Except VMErr (Option (Nat × Machine))
  | 0 => .ok none
  | fuel + 1 =>
    match m.runStep with
    | .error e => .error e
    | .ok (.halt code m') => .ok (some (code, m'))
    | .ok (.next m') => m'.run fuel

/-- `Machine::load`: the first word of the program must equal the magic
constant `0xEFBE_ADDE` (the little-endian decoding of the on-disk bytes
`DE AD BE EF`); the remaining words are copied into RAM starting at address
0 (the slicing panics when they exceed RAM's capacity), and `sp`/`pc` are
reset.  On the error path nothing is mutated. -/
def Machine.load (m : Machine) (program : List Nat) : Except VMErr Machine :=
  if program.head? = some 0xEFBEADDE then
    if program.length - 1 ≤ m.ram.length then
      .ok { m with ram := program.drop 1 ++ m.ram.drop (program.length - 1),
                   sp := 1024, pc := 0 }
    else .error .panicIndex
  else .error .errBadProgram

/-- The machine as constructed in `main`: zero-filled RAM, `sp = 1024`,
`pc = 0`, the given input stream, nothing written yet. -/
def initMachine (input : List Nat) : Machine :=
  { ram := List.replicate 1024 0, sp := 1024, pc := 0, input := input, output := [] }

/-- `sp` of the machine in a step result (`-1` on an error, in which case the
run has aborted). -/
def resSp (r : Except VMErr StepResult) : Int :=
  match r with
  | .ok s => s.machine.sp
  | .error _ => -1

/-- `pc` of the machine in a step result (`-1` on an error). -/
def resPc (r : Except VMErr StepResult) : Int :=
  match r with
  | .ok s => s.machine.pc
  | .error _ => -1

/-- RAM word at an index in a step result's machine (0 on an error). -/
def resRamAt (r : Except VMErr StepResult) (i : Nat) : Nat :=
  match r with
  | .ok s => s.machine.ram.getD i 0
  | .error _ => 0

/-- Bytes written to the output stream by a bounded run (empty on error or
fuel exhaustion). -/
def runOutput (m : Machine) (fuel : Nat) : List Nat :=
  match m.run fuel with
  | .ok (some p) => p.2.output
  | _ => []

/-! ### Concrete demonstration machines and spec-side helpers used by the claim theorems -/

/-- Program used to exhibit the C1 counterexample: its first word is the
constant the code actually checks for, `0xEFBEADDE`. -/
def magicDemoProgram : List Nat := [0xEFBEADDE, 0]

/-- Machine poised to divide 7 by 0: word 0 encodes Divide (`0x23000000`),
the right operand at `sp = 1022` is 0 and the left operand at 1023 is 7. -/
def divZeroDemo : Machine :=
  { ram := (((List.replicate 1024 0).set 0 0x23000000).set 1022 0).set 1023 7,
    sp := 1022, pc := 0, input := [], output := [] }

/-- Machine whose word 0 encodes Call with low-26-bit field 8
(`0x50000008`), executed at `pc = 0` on an empty stack. -/
def callDemo : Machine :=
  { ram := (List.replicate 1024 0).set 0 0x50000008, sp := 1024, pc := 0,
    input := [], output := [] }

/-- Sign extension of a 12-bit field value (`0 ≤ a < 4096`). -/
def sext12 (a : Int) : Int := if a < 2048 then a else a - 4096

/-- Machine whose word 0 encodes Swap with `from` field 4 and `to` field 0
(`0x01004000`), with distinguishable values at indices 1000, 1001, 1004. -/
def swapDemo : Machine :=
  { ram := ((((List.replicate 1024 0).set 0 16793600).set 1000 5).set 1001 9).set 1004 7,
    sp := 1000, pc := 0, input := [], output := [] }

/-- The unsigned ordering the code actually applies for the four ordering
comparison codes of BinaryIf (2 = lt, 3 = gt, 4 = le, 5 = ge), on the raw
`u32` operand words. -/
def condUnsigned (cond : Nat) (left right : Nat) : Bool :=
  match cond with
  | 2 => decide (left < right)
  | 3 => decide (left > right)
  | 4 => decide (left ≤ right)
  | 5 => decide (left ≥ right)
  | _ => false

/-- Machine whose word 0 encodes BinaryIf lt with word offset 5
(`0x84000014`), right operand 1 at `sp = 1022`, left operand `0xFFFFFFFF`
at 1023. -/
def binaryIfDemo : Machine :=
  { ram := (((List.replicate 1024 0).set 0 2214592532).set 1022 1).set 1023 4294967295,
    sp := 1022, pc := 0, input := [], output := [] }

/-- Machine with an empty stack whose word 0 encodes Subtract
(`0x21000000`). -/
def subDemo : Machine :=
  { ram := (List.replicate 1024 0).set 0 553648128, sp := 1024, pc := 0,
    input := [], output := [] }

/-- Machine whose word 0 encodes Stinput with `max_chars = 10`
(`0x0500000A`), fed an empty input line. -/
def stinputDemo : Machine :=
  { ram := (List.replicate 1024 0).set 0 83886090, sp := 1024, pc := 0,
    input := [10], output := [] }

/-- The round-trip program: magic word, Stinput with `max_chars = 10`,
Stprint at offset 0, Exit 0. -/
def roundtripProgram : List Nat := [4022250974, 83886090, 1073741824, 0]

/-- The freshly loaded round-trip machine, with input line `"hi"`. -/
def roundtripStart : Machine :=
  match (initMachine [104, 105, 10]).load roundtripProgram with
  | .ok m => m
  | .error _ => initMachine []

/-- Program holding a single Return instruction (`0x60000000`) behind the
magic word. -/
def returnDemoProgram : List Nat := [4022250974, 1610612736]

/-! ### Basic lemmas about the embedding -/

theorem i16wrap_eq_self {x : Int} (h1 : -32768 ≤ x) (h2 : x ≤ 32767) :
    i16wrap x = x := by
  unfold i16wrap; omega

theorem i16wrap_bounds (x : Int) : -32768 ≤ i16wrap x ∧ i16wrap x ≤ 32767 := by
  unfold i16wrap; omega

theorem ramGet_eq_ok {ram : List Nat} {i : Int} (h1 : 0 ≤ i)
    (h2 : i.toNat < ram.length) : ramGet ram i = .ok (ram.getD i.toNat 0) := by
  unfold ramGet; rw [if_pos ⟨h1, h2⟩]

theorem ramSet_eq_ok {ram : List Nat} {i : Int} (v : Nat) (h1 : 0 ≤ i)
    (h2 : i.toNat < ram.length) : ramSet ram i v = .ok (ram.set i.toNat v) := by
  unfold ramSet; rw [if_pos ⟨h1, h2⟩]

theorem ramGetD_eq {ram : List Nat} {i : Int} (h1 : 0 ≤ i)
    (h2 : i.toNat < ram.length) : ramGetD ram i = ram.getD i.toNat 0 := by
  unfold ramGetD; rw [if_pos ⟨h1, h2⟩]

theorem ramGetD_out_of_range {ram : List Nat} {i : Int}
    (h : ¬(0 ≤ i ∧ i.toNat < ram.length)) : ramGetD ram i = 0 := by
  unfold ramGetD; rw [if_neg h]

theorem push_eq_ok {m : Machine} (w : Nat) (h1 : 0 < m.sp)
    (h2 : (m.sp - 1).toNat < m.ram.length) :
    m.push w = .ok { m with sp := m.sp - 1,
                            ram := m.ram.set (m.sp - 1).toNat w } := by
  unfold Machine.push
  rw [if_neg (by omega), ramSet_eq_ok w (by omega) h2]

/-- Inversion for a successful push: the stack had room, `sp` went down by
one, and the word was written at the new `sp`; nothing else changed. -/
theorem push_ok_inv {m m' : Machine} {w : Nat} (h : m.push w = .ok m') :
    0 < m.sp ∧ (m.sp - 1).toNat < m.ram.length ∧
      m' = { m with sp := m.sp - 1, ram := m.ram.set (m.sp - 1).toNat w } := by
  by_cases hsp : m.sp ≤ 0
  · unfold Machine.push at h
    rw [if_pos hsp] at h
    exact absurd h (by simp)
  · by_cases hb : (m.sp - 1).toNat < m.ram.length
    · rw [push_eq_ok w (by omega) hb] at h
      injection h with h
      exact ⟨by omega, hb, h.symm⟩
    · unfold Machine.push ramSet at h
      rw [if_neg hsp, if_neg (fun hc => hb hc.2)] at h
      exact absurd h (by simp)

/-! ### Equations for the individual arms of `Machine::exec`, all definitional -/

theorem exec_Exit (m : Machine) (code : Nat) :
    m.exec (.Exit code) = .ok (.halt code m) := rfl

theorem exec_Nop (m : Machine) : m.exec .Nop = .ok (.next m.step) := rfl

theorem exec_Swap (m : Machine) (a b : Int) :
    m.exec (.Swap a b) =
      match ramGet m.ram (i16wrap (m.sp + i16wrap (a * 16) / 4 / 4)),
            ramGet m.ram (i16wrap (m.sp + i16wrap (b * 16) / 4 / 4)) with
      | .ok vf, .ok vt =>
        .ok (.next (Machine.step { m with ram := List.set (List.set m.ram (i16wrap (m.sp + i16wrap (a * 16) / 4 / 4)).toNat vt) (i16wrap (m.sp + i16wrap (b * 16) / 4 / 4)).toNat vf }))
      | .error e, _ => .error e
      | _, .error e => .error e := rfl

theorem exec_Pop (m : Machine) (offset : Nat) :
    m.exec (.Pop offset) =
      match rustClamp (i16wrap (m.sp + i16wrap ((offset / 4 : Nat) : Int))) 0 1024 with
      | .error e => .error e
      | .ok sp' => .ok (.next ({ m with sp := sp' }).step) := rfl

theorem exec_Goto (m : Machine) (offset : Int) :
    m.exec (.Goto offset) =
      .ok (.next { m with pc := i16wrap (m.pc + i16wrap offset) }) := rfl

theorem exec_Call (m : Machine) (offset : Int) :
    m.exec (.Call offset) =
      match m.push (toU32 (i16wrap (m.pc + 1))) with
      | .error e => .error e
      | .ok m' => .ok (.next { m' with pc := i16wrap (m'.pc + i16wrap (offset / 4)) }) := rfl

theorem exec_Return (m : Machine) (offset : Nat) :
    m.exec (.Return offset) =
      match rustClamp (i16wrap ((offset / 4 : Nat) : Int)) 0 (i16wrap (1024 - m.sp)) with
      | .error e => .error e
      | .ok c =>
        .ok (.next { m with sp := i16wrap (m.sp + 1 + c),
                            pc := i16wrap (ramGetD m.ram m.sp) }) := rfl

theorem exec_Dup (m : Machine) (offset : Nat) :
    m.exec (.Dup offset) =
      match ramGet m.ram (i16wrap (m.sp + i16wrap ((offset / 4 : Nat) : Int))) with
      | .error e => .error e
      | .ok val =>
        match m.push val with
        | .error e => .error e
        | .ok m' => .ok (.next m'.step) := rfl

theorem exec_Push (m : Machine) (v : Nat) :
    m.exec (.Push v) =
      match m.push v with
      | .error e => .error e
      | .ok m' => .ok (.next m'.step) := rfl

theorem exec_BinaryIf (m : Machine) (cond : Nat) (offset : Int) :
    m.exec (.BinaryIf cond offset) =
      (if (match cond with
           | 0 => ramGetD m.ram (i16wrap (m.sp + 1)) == ramGetD m.ram m.sp
           | 1 => ramGetD m.ram (i16wrap (m.sp + 1)) != ramGetD m.ram m.sp
           | 2 => decide (ramGetD m.ram (i16wrap (m.sp + 1)) < ramGetD m.ram m.sp)
           | 3 => decide (ramGetD m.ram (i16wrap (m.sp + 1)) > ramGetD m.ram m.sp)
           | 4 => decide (ramGetD m.ram (i16wrap (m.sp + 1)) ≤ ramGetD m.ram m.sp)
           | 5 => decide (ramGetD m.ram (i16wrap (m.sp + 1)) ≥ ramGetD m.ram m.sp)
           | _ => false) then
        .ok (.next { m with pc := i16wrap (m.pc + i16wrap offset) })
      else .ok (.next m.step)) := rfl

theorem exec_Add (m : Machine) : m.exec .Add = execBinary m opAdd := rfl

theorem exec_Subtract (m : Machine) : m.exec .Subtract = execBinary m opSub := rfl

theorem exec_Multiply (m : Machine) : m.exec .Multiply = execBinary m opMul := rfl

theorem exec_Divide (m : Machine) : m.exec .Divide = execBinary m opDiv := rfl

theorem exec_Remainder (m : Machine) : m.exec .Remainder = execBinary m opRem := rfl

theorem exec_And (m : Machine) : m.exec .And = execBinary m opAnd := rfl

theorem exec_Or (m : Machine) : m.exec .Or = execBinary m opOr := rfl

theorem exec_Xor (m : Machine) : m.exec .Xor = execBinary m opXor := rfl

theorem exec_LogicalLeftShift (m : Machine) :
    m.exec .LogicalLeftShift = execBinary m opShl := rfl

theorem exec_LogicalRightShift (m : Machine) :
    m.exec .LogicalRightShift = execBinary m opShr := rfl

theorem exec_ArithmeticRightShift (m : Machine) :
    m.exec .ArithmeticRightShift = execBinary m opShr := rfl

theorem exec_Not (m : Machine) : m.exec .Not = execUnary m opNot := rfl

theorem exec_Negate (m : Machine) : m.exec .Negate = execUnary m opNeg := rfl

theorem exec_EqZero (m : Machine) (offset : Int) :
    m.exec (.EqZero offset) = execUnaryIf m offset fun x => x == 0 := rfl

theorem exec_NeZero (m : Machine) (offset : Int) :
    m.exec (.NeZero offset) = execUnaryIf m offset fun x => x != 0 := rfl

theorem exec_GeZero (m : Machine) (offset : Int) :
    m.exec (.GeZero offset) = execUnaryIf m offset fun x => decide (x ≥ 0) := rfl

theorem exec_LtZero (m : Machine) (offset : Int) :
    m.exec (.LtZero offset) = execUnaryIf m offset fun x => decide (x < 0) := rfl

theorem exec_Debug (m : Machine) (d : Nat) :
    m.exec (.Debug d) =
      .ok (.next ({ m with output := m.output ++ [68, 101, 98, 117, 103, 10] }).step) := rfl

theorem exec_Stprint (m : Machine) (offset : Int) :
    m.exec (.Stprint offset) =
      match stprintGo m.ram (m.ram.length + 1) (i16wrap (m.sp + i16wrap (offset / 4))) [] with
      | .error e => .error e
      | .ok out => .ok (.next ({ m with output := m.output ++ out }).step) := rfl

theorem exec_Print (m : Machine) (offset : Int) :
    m.exec (.Print offset) =
      match ramGet m.ram (i16wrap (m.sp + i16wrap (offset / 4))) with
      | .error e => .error e
      | .ok val =>
        .ok (.next ({ m with output := m.output ++
          (if offset % 4 = 0 then decBytes (toI32 val)
           else if offset % 4 = 1 then [48, 120] ++ fmtDigits 16 val
           else if offset % 4 = 2 then [48, 98] ++ fmtDigits 2 val
           else [48, 111] ++ fmtDigits 8 val) ++ [10] }).step) := rfl

theorem exec_Dump (m : Machine) :
    m.exec .Dump =
      (if m.sp = 1024 then .ok (.next m.step)
       else
         match dumpGo m.ram m.sp (m.ram.length + 1) m.sp with
         | .error e => .error e
         | .ok out => .ok (.next ({ m with output := m.output ++ out }).step)) := rfl

theorem exec_Input (m : Machine) :
    m.exec .Input =
      match parseInputLine (trimBytes (readLine m.input).1) with
      | .error e => .error e
      | .ok w =>
        match ({ m with input := (readLine m.input).2 } : Machine).push (toU32 w) with
        | .error e => .error e
        | .ok m2 => .ok (.next m2.step) := rfl

theorem exec_Stinput (m : Machine) (maxChars : Nat) :
    m.exec (.Stinput maxChars) =
      (if trimBytes (readLine m.input).1 = [] then
        match ({ m with input := (readLine m.input).2 } : Machine).push 0 with
        | .error e => .error e
        | .ok m2 => .ok (.next m2)
      else
        match truncateChars (trimBytes (readLine m.input).1) maxChars with
        | .error e => .error e
        | .ok t2 =>
          match pushAll { m with input := (readLine m.input).2 }
              (stinWords (utf8Bytes (stinPad t2))) with
          | .error e => .error e
          | .ok m2 => .ok (.next m2.step)) := rfl

theorem runStep_eq (m : Machine) :
    m.runStep = match m.fetch with
                | .error e => .error e
                | .ok instruction => m.exec instruction := rfl

/-! ### C1: the magic-word check in `Machine::load` -/


/-- C1 counterexample: the claim says a first word of any value other than
`0xDEADBEEF` never loads successfully, but the code compares the first word
against `0xEFBE_ADDE` (`main.rs` line 147), so the word `0xEFBEADDE` — which
differs from `0xDEADBEEF` — loads fine. -/
theorem C1_counterexample :
    magicDemoProgram.head? = some 4022250974 ∧ (4022250974 : Nat) ≠ 3735928559 ∧
    ((initMachine []).load magicDemoProgram).isOk = true := by
  refine ⟨by decide, by decide, by decide⟩

/-- C1 (amended): loading a word sequence whose FIRST word differs from the
magic constant `0xEFBEADDE` (the little-endian reading of the on-disk bytes
`DE AD BE EF`) always fails with the bad-program error.  `load` is pure and
returns before touching RAM on this path, so no memory word is mutated, and
`main` unwraps the error before ever calling `run`. -/
theorem C1_load_bad_magic (m : Machine) (program : List Nat)
    (h : program.head? ≠ some 4022250974) :
    m.load program = .error .errBadProgram := by
  unfold Machine.load
  rw [if_neg h]

/-- Witness for C1: the claimed magic value `0xDEADBEEF` itself is rejected
by the loader. -/
theorem C1_load_bad_magic_witness :
    ([3735928559, 0] : List Nat).head? ≠ some 4022250974 ∧
    (initMachine []).load [3735928559, 0] = .error .errBadProgram :=
  ⟨by decide, C1_load_bad_magic _ _ (by decide)⟩

/-! ### C10: Return on an empty stack -/

/-- C10 (confirmed): executing Return with an empty stack (`sp = 1024`) never
faults: `ram.get(1024)` is out of range so the return address defaults to 0,
the clamp collapses to 0, and execution continues with `pc = 0` and
`sp = 1025`. -/
theorem C10_return_empty_stack (m : Machine) (offset : Nat)
    (hlen : m.ram.length = 1024) (hsp : m.sp = 1024)
    (hfetch : m.fetch = .ok (.Return offset)) :
    ∃ m', m.runStep = .ok (.next m') ∧ m'.sp = 1025 ∧ m'.pc = 0 ∧
      m'.ram = m.ram ∧ m'.output = m.output := by
  have hrs : m.runStep = m.exec (.Return offset) := by
    rw [runStep_eq, hfetch]
  rw [hrs, exec_Return]
  have haddr : ramGetD m.ram m.sp = 0 := by
    apply ramGetD_out_of_range
    omega
  have hclamp :
      rustClamp (i16wrap ((offset / 4 : Nat) : Int)) 0 (i16wrap (1024 - m.sp)) =
        .ok 0 := by
    unfold rustClamp
    rw [hsp]
    have h0 : i16wrap (1024 - 1024) = 0 := by unfold i16wrap; omega
    rw [h0, if_neg (by omega)]
    have hle : min (i16wrap ((offset / 4 : Nat) : Int)) 0 ≤ 0 := min_le_right _ _
    have hmax : max 0 (min (i16wrap ((offset / 4 : Nat) : Int)) 0) = 0 := by omega
    rw [hmax]
  rw [haddr, hclamp]
  refine ⟨_, rfl, ?_, ?_, rfl, rfl⟩
  · dsimp only
    rw [hsp]; unfold i16wrap; omega
  · dsimp only
    unfold i16wrap; omega

/-! ### C3: division and remainder by zero -/


/-- C3 counterexample: with a zero right operand, Divide ends the run with
`panicDivZero`, which models a Rust panic — the process aborts.  The claim
says the fault is "surfaced to the caller as an error result, rather than
... crashing unhandled", but `isPanic` is `true` for this outcome: it is an
unhandled `attempt to divide by zero` panic (`main.rs` line 236), not an
`Err` value returned from `run`. -/
theorem C3_counterexample :
    divZeroDemo.runStep = .error .panicDivZero ∧
    VMErr.panicDivZero.isPanic = true :=
  ⟨by decide, by decide⟩

/-- C3 (amended): in every machine state in which the right operand (the word
at `sp`) is zero and both operands are readable, executing Divide or
Remainder ends the run with the division-by-zero PANIC: the run loop stops,
no output is produced by the instruction, but the fault is a process-aborting
panic, not an error result surfaced to the caller. -/
theorem C3_div_by_zero_panics (m : Machine)
    (hlen : m.ram.length = 1024) (h0 : 0 ≤ m.sp) (h1 : m.sp + 1 < 1024)
    (hz : m.ram.getD m.sp.toNat 0 = 0)
    (hi : m.fetch = .ok .Divide ∨ m.fetch = .ok .Remainder) :
    m.runStep = .error .panicDivZero ∧ VMErr.panicDivZero.isPanic = true := by
  have hr : ramGet m.ram m.sp = .ok 0 := by
    rw [ramGet_eq_ok h0 (by omega), hz]
  have hsp1 : i16wrap (m.sp + 1) = m.sp + 1 := i16wrap_eq_self (by omega) (by omega)
  have hl : ramGet m.ram (m.sp + 1) = .ok (m.ram.getD (m.sp + 1).toNat 0) :=
    ramGet_eq_ok (by omega) (by omega)
  have hz32 : toI32 0 = 0 := by decide
  refine ⟨?_, by decide⟩
  rcases hi with h | h
  · have hrs : m.runStep = m.exec .Divide := by rw [runStep_eq, h]
    have hdiv : m.binaryOp opDiv = .error .panicDivZero := by
      unfold Machine.binaryOp
      rw [hr, hsp1]
      dsimp only
      rw [hl, hz32]
      simp [opDiv]
    rw [hrs, exec_Divide]
    unfold execBinary
    rw [hdiv]
  · have hrs : m.runStep = m.exec .Remainder := by rw [runStep_eq, h]
    have hrem : m.binaryOp opRem = .error .panicDivZero := by
      unfold Machine.binaryOp
      rw [hr, hsp1]
      dsimp only
      rw [hl, hz32]
      simp [opRem]
    rw [hrs, exec_Remainder]
    unfold execBinary
    rw [hrem]

/-- Witness for C3 at the concrete divide-by-zero machine. -/
theorem C3_div_by_zero_panics_witness :
    divZeroDemo.runStep = .error .panicDivZero ∧
    VMErr.panicDivZero.isPanic = true :=
  C3_div_by_zero_panics divZeroDemo (by simp [divZeroDemo]) (by decide)
    (by decide) (by decide) (Or.inl (by decide))

/-! ### C4: the Call offset -/


/-- C4 counterexample: `0x50000008` decodes to Call with sign-extended
offset 8; the claim says the new `pc` is `pc + offset = 0 + 8 = 8` counted
directly in word units, but the code (`main.rs` line 295) adds
`offset >> 2`, so the step ends with `pc = 2`. -/
theorem C4_counterexample :
    decode 1342177288 = .ok (.Call 8) ∧
    resPc callDemo.runStep = 2 ∧ (2 : Int) ≠ 8 :=
  ⟨by decide, by decide, by decide⟩

/-- C4 (amended): a Call executed at `pc` pushes `pc + 1` (as a `u32`) as the
return address, then adds `offset >> 2` — the sign-extended low-26-bit field
arithmetically shifted right by two, i.e. divided by 4 rounding toward minus
infinity, truncated to `i16` — to `pc`; the implicit increment is skipped. -/
theorem C4_call_pushes_and_jumps (m : Machine) (offset : Int)
    (hlen : m.ram.length = 1024) (h1 : 1 ≤ m.sp) (h2 : m.sp ≤ 1024)
    (hp1 : 0 ≤ m.pc) (hp2 : m.pc + 1 ≤ 32767)
    (hfetch : m.fetch = .ok (.Call offset)) :
    ∃ m', m.runStep = .ok (.next m') ∧
      m'.sp = m.sp - 1 ∧
      m'.ram = m.ram.set (m.sp - 1).toNat (toU32 (m.pc + 1)) ∧
      m'.pc = i16wrap (m.pc + i16wrap (offset / 4)) ∧
      m'.output = m.output := by
  have hrs : m.runStep = m.exec (.Call offset) := by rw [runStep_eq, hfetch]
  rw [hrs, exec_Call]
  have hw : i16wrap (m.pc + 1) = m.pc + 1 := i16wrap_eq_self (by omega) (by omega)
  rw [hw, push_eq_ok _ (by omega) (by omega)]
  exact ⟨_, rfl, rfl, rfl, rfl, rfl⟩

/-- Witness for C4 at the concrete Call machine. -/
theorem C4_call_pushes_and_jumps_witness :
    ∃ m', callDemo.runStep = .ok (.next m') ∧
      m'.sp = callDemo.sp - 1 ∧
      m'.ram = callDemo.ram.set (callDemo.sp - 1).toNat (toU32 (callDemo.pc + 1)) ∧
      m'.pc = i16wrap (callDemo.pc + i16wrap (8 / 4)) ∧
      m'.output = callDemo.output :=
  C4_call_pushes_and_jumps callDemo 8 (by simp [callDemo]) (by decide)
    (by decide) (by decide) (by decide) (by decide)


/-! ### C5: the Swap offsets -/


/-- What the Swap arm's offset pipeline actually computes for a decoded
12-bit field `a`: `((a << 4) >> 2)` equals `sext12 a * 4`, and the later
`>> 2` recovers `sext12 a` — so the field ends up used directly as a WORD
offset; no division by 4 of a byte offset survives. -/
theorem swapOffset_eq (a : Int) (ha0 : 0 ≤ a) (ha1 : a < 4096) :
    i16wrap (a * 16) / 4 / 4 = sext12 a := by
  unfold i16wrap sext12
  split_ifs <;> omega


/-- C5 counterexample: with `from = 4`, `to = 0` and `sp = 1000` the claim
predicts an exchange of the words at `sp + 4/4 = 1001` and `sp + 0/4 = 1000`
(so `ram[1000]` would become the 9 stored at 1001); the code instead
exchanges the words at `sp + 4 = 1004` and `sp + 0 = 1000` (`main.rs` lines
169-175: `(from << 4) >> 2` multiplies the sign-extended field by 4 and the
later `>> 2` cancels it), leaving `ram[1000] = 7`, `ram[1001] = 9` untouched
and `ram[1004] = 5`. -/
theorem C5_counterexample :
    decode 16793600 = .ok (.Swap 4 0) ∧
    resRamAt swapDemo.runStep 1000 = 7 ∧ (7 : Nat) ≠ 9 ∧
    resRamAt swapDemo.runStep 1001 = 9 ∧
    resRamAt swapDemo.runStep 1004 = 5 :=
  ⟨by decide, by decide, by decide, by decide, by decide⟩

/-- C5 (amended): an executed Swap carrying 12-bit fields `a` (bits 23-12)
and `b` (bits 11-0) exchanges exactly the two Memory words at indices
`sp + sext12 a` and `sp + sext12 b`: the sign-extended fields are used
directly as word offsets, with no division by 4. -/
theorem C5_swap_uses_word_offsets (m : Machine) (a b : Int)
    (hlen : m.ram.length = 1024)
    (ha0 : 0 ≤ a) (ha1 : a < 4096) (hb0 : 0 ≤ b) (hb1 : b < 4096)
    (hf0 : 0 ≤ m.sp + sext12 a) (hf1 : m.sp + sext12 a < 1024)
    (ht0 : 0 ≤ m.sp + sext12 b) (ht1 : m.sp + sext12 b < 1024)
    (hfetch : m.fetch = .ok (.Swap a b)) :
    ∃ m', m.runStep = .ok (.next m') ∧
      m'.ram = (m.ram.set (m.sp + sext12 a).toNat
          (m.ram.getD (m.sp + sext12 b).toNat 0)).set
        (m.sp + sext12 b).toNat (m.ram.getD (m.sp + sext12 a).toNat 0) ∧
      m'.sp = m.sp ∧ m'.pc = i16wrap (m.pc + 1) ∧ m'.output = m.output := by
  have hrs : m.runStep = m.exec (.Swap a b) := by rw [runStep_eq, hfetch]
  rw [hrs, exec_Swap, swapOffset_eq a ha0 ha1, swapOffset_eq b hb0 hb1,
    i16wrap_eq_self (x := m.sp + sext12 a) (by omega) (by omega),
    i16wrap_eq_self (x := m.sp + sext12 b) (by omega) (by omega),
    ramGet_eq_ok hf0 (by omega), ramGet_eq_ok ht0 (by omega)]
  exact ⟨_, rfl, rfl, rfl, rfl, rfl⟩

/-- Witness for C5 at the concrete Swap machine. -/
theorem C5_swap_uses_word_offsets_witness :
    ∃ m', swapDemo.runStep = .ok (.next m') ∧
      m'.ram = (swapDemo.ram.set (swapDemo.sp + sext12 4).toNat
          (swapDemo.ram.getD (swapDemo.sp + sext12 0).toNat 0)).set
        (swapDemo.sp + sext12 0).toNat
          (swapDemo.ram.getD (swapDemo.sp + sext12 4).toNat 0) ∧
      m'.sp = swapDemo.sp ∧ m'.pc = i16wrap (swapDemo.pc + 1) ∧
      m'.output = swapDemo.output :=
  C5_swap_uses_word_offsets swapDemo 4 0 (by simp [swapDemo]) (by decide)
    (by decide) (by decide) (by decide) (by decide) (by decide) (by decide)
    (by decide) (by decide)

/-! ### C6: BinaryIf comparisons -/



/-- C6 counterexample: the operands read as two's-complement signed integers
are `left = -1` and `right = 1`, so the claimed signed `lt` comparison holds
and the branch should be taken (`pc = 0 + 5 = 5`); but the code compares the
raw `u32` values (`main.rs` lines 310-319), `0xFFFFFFFF < 1` is false
unsigned, and the machine falls through to `pc = 1`. -/
theorem C6_counterexample :
    decode 2214592532 = .ok (.BinaryIf 2 5) ∧
    toI32 4294967295 = -1 ∧ toI32 1 = 1 ∧
    resPc binaryIfDemo.runStep = 1 ∧ (1 : Int) ≠ 5 :=
  ⟨by decide, by decide, by decide, by decide, by decide⟩

/-- C6 (amended): for the ordering comparison codes (2 = lt, 3 = gt, 4 = le,
5 = ge), an executed BinaryIf peeks its operands (right at `sp`, left at
`sp + 1`) and decides the branch by the UNSIGNED order of the raw 32-bit
words: it jumps by the decoded word offset exactly when `condUnsigned` holds,
and otherwise falls through to the implicit increment; `sp` and RAM are
untouched either way. -/
theorem C6_binaryif_unsigned (m : Machine) (cond : Nat) (offset : Int)
    (h0 : 0 ≤ m.sp) (h1 : m.sp + 1 < 1024)
    (hc2 : 2 ≤ cond) (hc5 : cond ≤ 5)
    (hfetch : m.fetch = .ok (.BinaryIf cond offset)) :
    m.runStep = .ok (.next
      (if condUnsigned cond (ramGetD m.ram (m.sp + 1)) (ramGetD m.ram m.sp) then
        { m with pc := i16wrap (m.pc + i16wrap offset) }
      else m.step)) := by
  have hrs : m.runStep = m.exec (.BinaryIf cond offset) := by
    rw [runStep_eq, hfetch]
  have hw : i16wrap (m.sp + 1) = m.sp + 1 :=
    i16wrap_eq_self (by omega) (by omega)
  rw [hrs, exec_BinaryIf, hw]
  interval_cases cond
  · simp only [condUnsigned]
    split <;> rfl
  · simp only [condUnsigned]
    split <;> rfl
  · simp only [condUnsigned]
    split <;> rfl
  · simp only [condUnsigned]
    split <;> rfl

/-- Witness for C6 at the concrete BinaryIf machine: the unsigned comparison
`0xFFFFFFFF < 1` is false, so the step falls through. -/
theorem C6_binaryif_unsigned_witness :
    binaryIfDemo.runStep = .ok (.next
      (if condUnsigned 2 (ramGetD binaryIfDemo.ram (binaryIfDemo.sp + 1))
          (ramGetD binaryIfDemo.ram binaryIfDemo.sp) then
        { binaryIfDemo with pc := i16wrap (binaryIfDemo.pc + i16wrap 5) }
      else binaryIfDemo.step)) :=
  C6_binaryif_unsigned binaryIfDemo 2 5 (by decide) (by decide) (by decide)
    (by decide) (by decide)


/-! ### C7: the Subtract round trip -/

theorem getD_set_self {l : List Nat} {i : Nat} {v : Nat} (h : i < l.length) :
    (l.set i v).getD i 0 = v := by
  simp [List.getD_eq_getElem?_getD, List.getElem?_set, h]

theorem getD_set_ne {l : List Nat} {i j : Nat} {v : Nat} (h : i ≠ j) :
    (l.set i v).getD j 0 = l.getD j 0 := by
  simp [List.getD_eq_getElem?_getD, List.getElem?_set, h]

/-- Characterisation of a successful `binary_op`: with both operands readable
and the operation succeeding, the right operand is the word at `sp`, the left
the word at `sp + 1`, the result lands at `sp + 1` and `sp` increases by
one. -/
theorem binaryOp_eq_ok {m : Machine} {op : Int → Int → Except VMErr Int}
    {res : Int} (h0 : 0 ≤ m.sp) (h1 : m.sp + 1 < m.ram.length)
    (hlen : m.ram.length ≤ 32767)
    (hop : op (toI32 (m.ram.getD (m.sp + 1).toNat 0))
        (toI32 (m.ram.getD m.sp.toNat 0)) = .ok res) :
    m.binaryOp op = .ok { m with sp := m.sp + 1,
                                 ram := m.ram.set (m.sp + 1).toNat (toU32 res) } := by
  unfold Machine.binaryOp
  rw [ramGet_eq_ok h0 (by omega), i16wrap_eq_self (x := m.sp + 1) (by omega) (by omega)]
  dsimp only
  rw [ramGet_eq_ok (by omega) (by omega)]
  dsimp only
  rw [hop]
  dsimp only
  rw [i16wrap_eq_self (x := m.sp + 1 + 1) (by omega) (by omega),
    i16wrap_eq_self (x := m.sp + 1 + 1 - 1) (by omega) (by omega),
    show m.sp + 1 + 1 - 1 = m.sp + 1 by ring,
    ramSet_eq_ok (toU32 res) (by omega) (by omega)]

/-- Wrapped `i32` subtraction of two `u32` words, expressed on the unsigned
side: the stored result is `(a - b) mod 2^32`. -/
theorem sub_wrap_eq (a b : Nat) (ha : a < 4294967296) (hb : b < 4294967296) :
    toU32 (i32wrap (toI32 a - toI32 b)) = (a + (4294967296 - b)) % 4294967296 := by
  unfold toU32 i32wrap toI32
  split_ifs <;> omega


/-- C7 counterexample: starting from `sp = 1024`, pushing 5, pushing 3 and
executing Subtract leaves `sp = 1023` — one LESS than before the two pushes,
not one greater (`1024 + 1`) as the claim states.  (It is one greater than
the `sp = 1022` reached after the two pushes.) -/
theorem C7_counterexample :
    ∃ m1 m2, subDemo.push 5 = .ok m1 ∧ m1.push 3 = .ok m2 ∧
      m2.sp = 1022 ∧ resSp (m2.exec .Subtract) = 1023 ∧
      subDemo.sp = 1024 ∧ ¬((1023 : Int) = 1024 + 1) :=
  ⟨_, _, rfl, rfl, by decide, by decide, by decide, by decide⟩

/-- C7 (amended): for every machine state with `2 ≤ sp ≤ 1024` and 32-bit
values `a`, `b`: pushing `a`, then `b`, then executing Subtract leaves
`a - b` (mod `2^32`) at the new top of stack, and `sp` afterwards is exactly
one LESS than before the two pushes (equivalently one greater than right
after them). -/
theorem C7_subtract_roundtrip (m : Machine) (a b : Nat)
    (hlen : m.ram.length = 1024) (h2 : 2 ≤ m.sp) (h3 : m.sp ≤ 1024)
    (ha : a < 4294967296) (hb : b < 4294967296) :
    ∃ m1 m2 m3, m.push a = .ok m1 ∧ m1.push b = .ok m2 ∧
      m2.exec .Subtract = .ok (.next m3) ∧
      m3.sp = m.sp - 1 ∧
      m3.ram.getD (m.sp - 1).toNat 0 = (a + (4294967296 - b)) % 4294967296 := by
  have hp1 : m.push a =
      .ok { m with sp := m.sp - 1, ram := m.ram.set (m.sp - 1).toNat a } :=
    push_eq_ok a (by omega) (by omega)
  generalize hM1 : ({ m with sp := m.sp - 1, ram := m.ram.set (m.sp - 1).toNat a } : Machine) = m1 at hp1
  have hsp1 : m1.sp = m.sp - 1 := by rw [← hM1]
  have hram1 : m1.ram = m.ram.set (m.sp - 1).toNat a := by rw [← hM1]
  have hlen1 : m1.ram.length = 1024 := by rw [hram1, List.length_set, hlen]
  have hp2 : m1.push b =
      .ok { m1 with sp := m1.sp - 1, ram := m1.ram.set (m1.sp - 1).toNat b } :=
    push_eq_ok b (by omega) (by omega)
  rw [hsp1, show m.sp - 1 - 1 = m.sp - 2 from by ring] at hp2
  generalize hM2 : ({ m1 with sp := m.sp - 2, ram := m1.ram.set (m.sp - 2).toNat b } : Machine) = m2 at hp2
  have hsp2 : m2.sp = m.sp - 2 := by rw [← hM2]
  have hram2 : m2.ram = m1.ram.set (m.sp - 2).toNat b := by rw [← hM2]
  have hlen2 : m2.ram.length = 1024 := by rw [hram2, List.length_set, hlen1]
  have hramr : m2.ram.getD m2.sp.toNat 0 = b := by
    rw [hsp2, hram2]
    exact getD_set_self (by omega)
  have hraml : m2.ram.getD (m2.sp + 1).toNat 0 = a := by
    rw [hsp2, hram2, show m.sp - 2 + 1 = m.sp - 1 from by ring,
      getD_set_ne (by omega), hram1]
    exact getD_set_self (by omega)
  have hop : opSub (toI32 (m2.ram.getD (m2.sp + 1).toNat 0))
      (toI32 (m2.ram.getD m2.sp.toNat 0)) =
      .ok (i32wrap (toI32 a - toI32 b)) := by
    rw [hramr, hraml]
    rfl
  have hbin := binaryOp_eq_ok (m := m2) (by omega) (by omega) (by omega) hop
  refine ⟨m1, m2,
    Machine.step { m2 with sp := m2.sp + 1, ram := m2.ram.set (m2.sp + 1).toNat (toU32 (i32wrap (toI32 a - toI32 b))) },
    hp1, hp2, ?_, ?_, ?_⟩
  · rw [exec_Subtract]
    unfold execBinary
    rw [hbin]
  · dsimp only [Machine.step]
    omega
  · dsimp only [Machine.step]
    rw [hsp2, show m.sp - 2 + 1 = m.sp - 1 from by ring]
    rw [getD_set_self (by omega)]
    exact sub_wrap_eq a b ha hb

/-- Witness for C7 at the concrete machine: `5 - 3 = 2` ends at the top of
stack with `sp = 1023`. -/
theorem C7_subtract_roundtrip_witness :
    ∃ m1 m2 m3, subDemo.push 5 = .ok m1 ∧ m1.push 3 = .ok m2 ∧
      m2.exec .Subtract = .ok (.next m3) ∧
      m3.sp = subDemo.sp - 1 ∧
      m3.ram.getD (subDemo.sp - 1).toNat 0 = (5 + (4294967296 - 3)) % 4294967296 :=
  C7_subtract_roundtrip subDemo 5 3 (by simp [subDemo]) (by decide) (by decide)
    (by decide) (by decide)


/-! ### C8: Stinput with an empty input line -/


/-- C8 (code bug): on an empty trimmed line Stinput pushes a single zero
word, as claimed — but the `continue` on the empty-line path (`main.rs` line
205) skips the implicit `self.step()`, so `pc` stays at 0 instead of
advancing by one: the same Stinput executes again on the next iteration.  On
an input stream that remains empty this loops, pushing zeros until the stack
overflows, which cannot be the intent for an instruction that is not
control flow; the spec's main-loop rule (increment `pc` except for explicit
control-flow instructions) is the intended behaviour and the code diverges
from it. -/
theorem C8_empty_line_skips_increment :
    decode 83886090 = .ok (.Stinput 10) ∧
    resSp stinputDemo.runStep = 1023 ∧
    resRamAt stinputDemo.runStep 1023 = 0 ∧
    resPc stinputDemo.runStep = 0 ∧ (0 : Int) ≠ stinputDemo.pc + 1 :=
  ⟨by decide, by decide, by decide, by decide, by decide⟩

/-! ### C9: the Stinput/Stprint round trip -/



/-- C9 counterexample: the run writes the three bytes 'h', 'i', 0x00 — not
exactly the two bytes 'h' and 'i'.  The packed word is `0x00016968`; Stprint
emits every little-endian byte except those equal to the sentinel 1, and the
zero TOP byte (the byte that would carry the continuation flag) is not 1, so
a NUL byte is written after the string (`main.rs` lines 273-278). -/
theorem C9_counterexample :
    runOutput roundtripStart 10 = [104, 105, 0] ∧
    ([104, 105, 0] : List Nat) ≠ [104, 105] :=
  ⟨by decide, by decide⟩

/-- C9 (amended): feeding the line `"hi"` to Stinput with `max_chars = 10`
and then executing Stprint at offset 0 writes exactly the three bytes 'h',
'i', 0x00: the two string bytes in order, no sentinel bytes, no SET
continuation-flag byte — but the zero fourth byte of the final packed word
is also emitted. -/
theorem C9_roundtrip_trailing_nul :
    runOutput roundtripStart 10 = [104, 105, 0] := by decide


/-! ### C2: stack-pointer bounds -/

theorem ramGet_ok_inv {ram : List Nat} {i : Int} {v : Nat}
    (h : ramGet ram i = .ok v) :
    0 ≤ i ∧ i.toNat < ram.length ∧ ram.getD i.toNat 0 = v := by
  unfold ramGet at h
  split at h
  · rename_i hb
    injection h with h
    exact ⟨hb.1, hb.2, h⟩
  · exact absurd h (by simp)

theorem rustClamp_ok_inv {x lo hi c : Int} (h : rustClamp x lo hi = .ok c) :
    lo ≤ hi ∧ lo ≤ c ∧ c ≤ hi := by
  unfold rustClamp at h
  split at h
  · exact absurd h (by simp)
  · rename_i hlo
    injection h with h
    subst h
    exact ⟨by omega, le_max_left _ _, max_le (by omega) (min_le_right x hi)⟩

/-- A successful `binary_op` implies both operand slots were readable and the
net effect on `sp` is exactly `+1`; RAM keeps its length. -/
theorem binaryOp_ok_sp {m m' : Machine} {op : Int → Int → Except VMErr Int}
    (hlen : m.ram.length ≤ 32767) (h : m.binaryOp op = .ok m') :
    0 ≤ m.sp ∧ m.sp + 1 < m.ram.length ∧ m'.sp = m.sp + 1 ∧
      m'.ram.length = m.ram.length := by
  unfold Machine.binaryOp at h
  cases hg1 : ramGet m.ram m.sp with
  | error e => rw [hg1] at h; simp at h
  | ok rv =>
    rw [hg1] at h
    dsimp only at h
    obtain ⟨hs0, hs1, -⟩ := ramGet_ok_inv hg1
    rw [i16wrap_eq_self (x := m.sp + 1) (by omega) (by omega)] at h
    cases hg2 : ramGet m.ram (m.sp + 1) with
    | error e => rw [hg2] at h; simp at h
    | ok lv =>
      rw [hg2] at h
      dsimp only at h
      obtain ⟨hs2, hs3, -⟩ := ramGet_ok_inv hg2
      rw [i16wrap_eq_self (x := m.sp + 1 + 1) (by omega) (by omega)] at h
      cases hop : op (toI32 lv) (toI32 rv) with
      | error e => rw [hop] at h; simp at h
      | ok res =>
        rw [hop] at h
        dsimp only at h
        rw [show m.sp + 1 + 1 - 1 = m.sp + 1 from by ring,
          i16wrap_eq_self (x := m.sp + 1) (by omega) (by omega)] at h
        cases hset : ramSet m.ram (m.sp + 1) (toU32 res) with
        | error e => rw [hset] at h; simp at h
        | ok ram2 =>
          rw [hset] at h
          dsimp only at h
          injection h with h
          subst h
          have hl2 : ram2.length = m.ram.length := by
            unfold ramSet at hset
            split at hset
            · injection hset with hset
              rw [← hset, List.length_set]
            · exact absurd hset (by simp)
          exact ⟨hs0, by omega, rfl, hl2⟩

/-- A successful `unary_op` leaves `sp` unchanged. -/
theorem unaryOp_ok_sp {m m' : Machine} {op : Int → Int}
    (hlen : m.ram.length ≤ 32767) (h : m.unaryOp op = .ok m') :
    0 ≤ m.sp ∧ m.sp < m.ram.length ∧ m'.sp = m.sp := by
  unfold Machine.unaryOp at h
  cases hg1 : ramGet m.ram m.sp with
  | error e => rw [hg1] at h; simp at h
  | ok v =>
    rw [hg1] at h
    dsimp only at h
    obtain ⟨hs0, hs1, -⟩ := ramGet_ok_inv hg1
    rw [i16wrap_eq_self (x := m.sp + 1) (by omega) (by omega),
      show m.sp + 1 - 1 = m.sp from by ring,
      i16wrap_eq_self (x := m.sp) (by omega) (by omega)] at h
    cases hset : ramSet m.ram m.sp (toU32 (op (toI32 v))) with
    | error e => rw [hset] at h; simp at h
    | ok ram2 =>
      rw [hset] at h
      dsimp only at h
      injection h with h
      subst h
      exact ⟨hs0, by omega, rfl⟩

/-- A successful `unary_if` leaves `sp` and RAM unchanged. -/
theorem unaryIf_ok_sp {m m' : Machine} {offset : Int} {cond : Int → Bool}
    {b : Bool} (h : m.unaryIf offset cond = .ok (b, m')) :
    m'.sp = m.sp ∧ m'.ram = m.ram := by
  unfold Machine.unaryIf at h
  cases hg1 : ramGet m.ram m.sp with
  | error e => rw [hg1] at h; simp at h
  | ok v =>
    rw [hg1] at h
    dsimp only at h
    split at h
    · injection h with h
      rw [show m' = ({ m with pc := i16wrap (m.pc + i16wrap (offset / 4)) } : Machine) from congrArg Prod.snd h.symm]
      exact ⟨rfl, rfl⟩
    · injection h with h
      rw [show m' = m from congrArg Prod.snd h.symm]
      exact ⟨rfl, rfl⟩

/-- `pushAll` keeps `sp` within `[0, 1024]` when it starts there. -/
theorem pushAll_sp : ∀ (ws : List Nat) (m m' : Machine),
    pushAll m ws = .ok m' → 0 ≤ m.sp → m.sp ≤ 1024 →
    0 ≤ m'.sp ∧ m'.sp ≤ 1024
  | [], m, m', h, h0, h1 => by
    unfold pushAll at h
    injection h with h
    subst h
    exact ⟨h0, h1⟩
  | w :: ws, m, m', h, h0, h1 => by
    unfold pushAll at h
    cases hp : m.push w with
    | error e => rw [hp] at h; simp at h
    | ok m1 =>
      rw [hp] at h
      dsimp only at h
      obtain ⟨hpos, hidx, hm1⟩ := push_ok_inv hp
      subst hm1
      exact pushAll_sp ws _ m' h (by dsimp only; omega) (by dsimp only; omega)



/-- C2 counterexample: from the freshly loaded (hence reachable) machine with
`sp = 1024`, executing the Return instruction yields `sp = 1025`: the bound
`0 ≤ sp ≤ 1024` is NOT preserved by every instruction — Return's clamp
`(extra).clamp(0, 1024 - sp)` is applied before the additional `sp + 1`, so
the resulting state violates the claimed invariant. -/
theorem C2_counterexample :
    ∃ m0, (initMachine []).load returnDemoProgram = .ok m0 ∧
      m0.sp = 1024 ∧ (0 : Int) ≤ m0.sp ∧
      resSp m0.runStep = 1025 ∧ ¬((1025 : Int) ≤ 1024) :=
  ⟨_, rfl, by decide, by decide, by decide, by decide⟩

/-- C2 (amended): starting from any state with `0 ≤ sp ≤ 1024` (on the fixed
1024-word RAM), every successfully executed instruction keeps
`0 ≤ sp ≤ 1025`, and every instruction other than Return keeps
`0 ≤ sp ≤ 1024`; Return alone can leave `sp = 1025`, because its clamp bound
`1024 - sp` is computed from the pre-increment `sp`. -/
theorem C2_sp_bounds (m : Machine) (r : StepResult)
    (hlen : m.ram.length = 1024) (h0 : 0 ≤ m.sp) (h1 : m.sp ≤ 1024)
    (h : m.runStep = .ok r) :
    0 ≤ r.machine.sp ∧ r.machine.sp ≤ 1025 ∧
      ((∀ n, m.fetch ≠ .ok (.Return n)) → r.machine.sp ≤ 1024) := by
  rw [runStep_eq] at h
  cases hf : m.fetch with
  | error e => rw [hf] at h; simp at h
  | ok instr =>
    rw [hf] at h
    dsimp only at h
    cases instr with
    | Exit code =>
      rw [exec_Exit] at h
      injection h with h
      subst h
      refine ⟨?_, ?_, fun _ => ?_⟩ <;>
        dsimp only [StepResult.machine] <;> omega
    | Swap a b =>
      rw [exec_Swap] at h
      cases hgf : ramGet m.ram (i16wrap (m.sp + i16wrap (a * 16) / 4 / 4)) with
      | error e => rw [hgf] at h; simp at h
      | ok vf =>
        rw [hgf] at h
        cases hgt : ramGet m.ram (i16wrap (m.sp + i16wrap (b * 16) / 4 / 4)) with
        | error e => rw [hgt] at h; simp at h
        | ok vt =>
          rw [hgt] at h
          dsimp only at h
          injection h with h
          subst h
          refine ⟨?_, ?_, fun _ => ?_⟩ <;>
            dsimp only [StepResult.machine, Machine.step] <;> omega
    | Nop =>
      rw [exec_Nop] at h
      injection h with h
      subst h
      refine ⟨?_, ?_, fun _ => ?_⟩ <;>
        dsimp only [StepResult.machine, Machine.step] <;> omega
    | Input =>
      rw [exec_Input] at h
      cases hP : parseInputLine (trimBytes (readLine m.input).1) with
      | error e => rw [hP] at h; simp at h
      | ok w =>
        rw [hP] at h
        dsimp only at h
        cases hpush : ({ m with input := (readLine m.input).2 } : Machine).push (toU32 w) with
        | error e => rw [hpush] at h; simp at h
        | ok m2 =>
          rw [hpush] at h
          dsimp only at h
          injection h with h
          subst h
          obtain ⟨hpos, hidx, hm2⟩ := push_ok_inv hpush
          subst hm2
          refine ⟨?_, ?_, fun _ => ?_⟩ <;>
            dsimp only [StepResult.machine, Machine.step] <;> dsimp only at hpos <;> omega
    | Stinput maxChars =>
      rw [exec_Stinput] at h
      split at h
      · cases hpush : ({ m with input := (readLine m.input).2 } : Machine).push 0 with
        | error e => rw [hpush] at h; simp at h
        | ok m2 =>
          rw [hpush] at h
          dsimp only at h
          injection h with h
          subst h
          obtain ⟨hpos, hidx, hm2⟩ := push_ok_inv hpush
          subst hm2
          refine ⟨?_, ?_, fun _ => ?_⟩ <;>
            dsimp only [StepResult.machine, Machine.step] <;> dsimp only at hpos <;> omega
      · cases htr : truncateChars (trimBytes (readLine m.input).1) maxChars with
        | error e => rw [htr] at h; simp at h
        | ok t2 =>
          rw [htr] at h
          dsimp only at h
          cases hpa : pushAll { m with input := (readLine m.input).2 }
              (stinWords (utf8Bytes (stinPad t2))) with
          | error e => rw [hpa] at h; simp at h
          | ok m2 =>
            rw [hpa] at h
            dsimp only at h
            injection h with h
            subst h
            have hb := pushAll_sp _ _ _ hpa (by dsimp only; omega) (by dsimp only; omega)
            refine ⟨?_, ?_, fun _ => ?_⟩ <;>
              dsimp only [StepResult.machine, Machine.step] <;> omega
    | Debug d =>
      rw [exec_Debug] at h
      injection h with h
      subst h
      refine ⟨?_, ?_, fun _ => ?_⟩ <;>
        dsimp only [StepResult.machine, Machine.step] <;> omega
    | Pop offset =>
      rw [exec_Pop] at h
      cases hc : rustClamp (i16wrap (m.sp + i16wrap ((offset / 4 : Nat) : Int))) 0 1024 with
      | error e => rw [hc] at h; simp at h
      | ok c =>
        rw [hc] at h
        dsimp only at h
        injection h with h
        subst h
        obtain ⟨-, hc1, hc2⟩ := rustClamp_ok_inv hc
        refine ⟨?_, ?_, fun _ => ?_⟩ <;>
          dsimp only [StepResult.machine, Machine.step] <;> omega
    | Goto offset =>
      rw [exec_Goto] at h
      injection h with h
      subst h
      refine ⟨?_, ?_, fun _ => ?_⟩ <;>
        dsimp only [StepResult.machine, Machine.step] <;> omega
    | Stprint offset =>
      rw [exec_Stprint] at h
      cases hs : stprintGo m.ram (m.ram.length + 1)
          (i16wrap (m.sp + i16wrap (offset / 4))) [] with
      | error e => rw [hs] at h; simp at h
      | ok out =>
        rw [hs] at h
        dsimp only at h
        injection h with h
        subst h
        refine ⟨?_, ?_, fun _ => ?_⟩ <;>
          dsimp only [StepResult.machine, Machine.step] <;> omega
    | Call offset =>
      rw [exec_Call] at h
      cases hpush : m.push (toU32 (i16wrap (m.pc + 1))) with
      | error e => rw [hpush] at h; simp at h
      | ok m2 =>
        rw [hpush] at h
        dsimp only at h
        injection h with h
        subst h
        obtain ⟨hpos, hidx, hm2⟩ := push_ok_inv hpush
        subst hm2
        refine ⟨?_, ?_, fun _ => ?_⟩ <;>
          dsimp only [StepResult.machine, Machine.step] <;> omega
    | Return offset =>
      rw [exec_Return] at h
      cases hc : rustClamp (i16wrap ((offset / 4 : Nat) : Int)) 0 (i16wrap (1024 - m.sp)) with
      | error e => rw [hc] at h; simp at h
      | ok c =>
        rw [hc] at h
        dsimp only at h
        injection h with h
        subst h
        obtain ⟨-, hc1, hc2⟩ := rustClamp_ok_inv hc
        have hhi : i16wrap (1024 - m.sp) = 1024 - m.sp :=
          i16wrap_eq_self (by omega) (by omega)
        rw [hhi] at hc2
        have hw : i16wrap (m.sp + 1 + c) = m.sp + 1 + c :=
          i16wrap_eq_self (by omega) (by omega)
        refine ⟨?_, ?_, fun hno => absurd rfl (hno offset)⟩ <;>
          dsimp only [StepResult.machine, Machine.step] <;> rw [hw] <;> omega
    | BinaryIf cond offset =>
      rw [exec_BinaryIf] at h
      split at h <;>
      · injection h with h
        subst h
        refine ⟨?_, ?_, fun _ => ?_⟩ <;>
          dsimp only [StepResult.machine, Machine.step] <;> omega
    | EqZero offset =>
      rw [exec_EqZero] at h
      unfold execUnaryIf at h
      cases hu : m.unaryIf offset (fun x => x == 0) with
      | error e => rw [hu] at h; simp at h
      | ok p =>
        rw [hu] at h
        obtain ⟨b, m2⟩ := p
        obtain ⟨hsp, -⟩ := unaryIf_ok_sp hu
        cases b with
        | true =>
          dsimp only at h
          injection h with h
          subst h
          refine ⟨?_, ?_, fun _ => ?_⟩ <;>
            dsimp only [StepResult.machine, Machine.step] <;> omega
        | false =>
          dsimp only at h
          injection h with h
          subst h
          refine ⟨?_, ?_, fun _ => ?_⟩ <;>
            dsimp only [StepResult.machine, Machine.step] <;> omega
    | NeZero offset =>
      rw [exec_NeZero] at h
      unfold execUnaryIf at h
      cases hu : m.unaryIf offset (fun x => x != 0) with
      | error e => rw [hu] at h; simp at h
      | ok p =>
        rw [hu] at h
        obtain ⟨b, m2⟩ := p
        obtain ⟨hsp, -⟩ := unaryIf_ok_sp hu
        cases b with
        | true =>
          dsimp only at h
          injection h with h
          subst h
          refine ⟨?_, ?_, fun _ => ?_⟩ <;>
            dsimp only [StepResult.machine, Machine.step] <;> omega
        | false =>
          dsimp only at h
          injection h with h
          subst h
          refine ⟨?_, ?_, fun _ => ?_⟩ <;>
            dsimp only [StepResult.machine, Machine.step] <;> omega
    | GeZero offset =>
      rw [exec_GeZero] at h
      unfold execUnaryIf at h
      cases hu : m.unaryIf offset (fun x => decide (x ≥ 0)) with
      | error e => rw [hu] at h; simp at h
      | ok p =>
        rw [hu] at h
        obtain ⟨b, m2⟩ := p
        obtain ⟨hsp, -⟩ := unaryIf_ok_sp hu
        cases b with
        | true =>
          dsimp only at h
          injection h with h
          subst h
          refine ⟨?_, ?_, fun _ => ?_⟩ <;>
            dsimp only [StepResult.machine, Machine.step] <;> omega
        | false =>
          dsimp only at h
          injection h with h
          subst h
          refine ⟨?_, ?_, fun _ => ?_⟩ <;>
            dsimp only [StepResult.machine, Machine.step] <;> omega
    | LtZero offset =>
      rw [exec_LtZero] at h
      unfold execUnaryIf at h
      cases hu : m.unaryIf offset (fun x => decide (x < 0)) with
      | error e => rw [hu] at h; simp at h
      | ok p =>
        rw [hu] at h
        obtain ⟨b, m2⟩ := p
        obtain ⟨hsp, -⟩ := unaryIf_ok_sp hu
        cases b with
        | true =>
          dsimp only at h
          injection h with h
          subst h
          refine ⟨?_, ?_, fun _ => ?_⟩ <;>
            dsimp only [StepResult.machine, Machine.step] <;> omega
        | false =>
          dsimp only at h
          injection h with h
          subst h
          refine ⟨?_, ?_, fun _ => ?_⟩ <;>
            dsimp only [StepResult.machine, Machine.step] <;> omega
    | Dup offset =>
      rw [exec_Dup] at h
      cases hg : ramGet m.ram (i16wrap (m.sp + i16wrap ((offset / 4 : Nat) : Int))) with
      | error e => rw [hg] at h; simp at h
      | ok val =>
        rw [hg] at h
        dsimp only at h
        cases hpush : m.push val with
        | error e => rw [hpush] at h; simp at h
        | ok m2 =>
          rw [hpush] at h
          dsimp only at h
          injection h with h
          subst h
          obtain ⟨hpos, hidx, hm2⟩ := push_ok_inv hpush
          subst hm2
          refine ⟨?_, ?_, fun _ => ?_⟩ <;>
            dsimp only [StepResult.machine, Machine.step] <;> omega
    | Dump =>
      rw [exec_Dump] at h
      split at h
      · injection h with h
        subst h
        refine ⟨?_, ?_, fun _ => ?_⟩ <;>
          dsimp only [StepResult.machine, Machine.step] <;> omega
      · cases hd : dumpGo m.ram m.sp (m.ram.length + 1) m.sp with
        | error e => rw [hd] at h; simp at h
        | ok out =>
          rw [hd] at h
          dsimp only at h
          injection h with h
          subst h
          refine ⟨?_, ?_, fun _ => ?_⟩ <;>
            dsimp only [StepResult.machine, Machine.step] <;> omega
    | Print offset =>
      rw [exec_Print] at h
      cases hg : ramGet m.ram (i16wrap (m.sp + i16wrap (offset / 4))) with
      | error e => rw [hg] at h; simp at h
      | ok val =>
        rw [hg] at h
        dsimp only at h
        injection h with h
        subst h
        refine ⟨?_, ?_, fun _ => ?_⟩ <;>
          dsimp only [StepResult.machine, Machine.step] <;> omega
    | Push v =>
      rw [exec_Push] at h
      cases hpush : m.push v with
      | error e => rw [hpush] at h; simp at h
      | ok m2 =>
        rw [hpush] at h
        dsimp only at h
        injection h with h
        subst h
        obtain ⟨hpos, hidx, hm2⟩ := push_ok_inv hpush
        subst hm2
        refine ⟨?_, ?_, fun _ => ?_⟩ <;>
          dsimp only [StepResult.machine, Machine.step] <;> omega
    | Add =>
      rw [exec_Add] at h
      unfold execBinary at h
      cases hb : m.binaryOp opAdd with
      | error e => rw [hb] at h; simp at h
      | ok m2 =>
        rw [hb] at h
        dsimp only at h
        injection h with h
        subst h
        obtain ⟨hb0, hb1, hb2, -⟩ := binaryOp_ok_sp (by omega) hb
        refine ⟨?_, ?_, fun _ => ?_⟩ <;>
          dsimp only [StepResult.machine, Machine.step] <;> omega
    | Subtract =>
      rw [exec_Subtract] at h
      unfold execBinary at h
      cases hb : m.binaryOp opSub with
      | error e => rw [hb] at h; simp at h
      | ok m2 =>
        rw [hb] at h
        dsimp only at h
        injection h with h
        subst h
        obtain ⟨hb0, hb1, hb2, -⟩ := binaryOp_ok_sp (by omega) hb
        refine ⟨?_, ?_, fun _ => ?_⟩ <;>
          dsimp only [StepResult.machine, Machine.step] <;> omega
    | Multiply =>
      rw [exec_Multiply] at h
      unfold execBinary at h
      cases hb : m.binaryOp opMul with
      | error e => rw [hb] at h; simp at h
      | ok m2 =>
        rw [hb] at h
        dsimp only at h
        injection h with h
        subst h
        obtain ⟨hb0, hb1, hb2, -⟩ := binaryOp_ok_sp (by omega) hb
        refine ⟨?_, ?_, fun _ => ?_⟩ <;>
          dsimp only [StepResult.machine, Machine.step] <;> omega
    | Divide =>
      rw [exec_Divide] at h
      unfold execBinary at h
      cases hb : m.binaryOp opDiv with
      | error e => rw [hb] at h; simp at h
      | ok m2 =>
        rw [hb] at h
        dsimp only at h
        injection h with h
        subst h
        obtain ⟨hb0, hb1, hb2, -⟩ := binaryOp_ok_sp (by omega) hb
        refine ⟨?_, ?_, fun _ => ?_⟩ <;>
          dsimp only [StepResult.machine, Machine.step] <;> omega
    | Remainder =>
      rw [exec_Remainder] at h
      unfold execBinary at h
      cases hb : m.binaryOp opRem with
      | error e => rw [hb] at h; simp at h
      | ok m2 =>
        rw [hb] at h
        dsimp only at h
        injection h with h
        subst h
        obtain ⟨hb0, hb1, hb2, -⟩ := binaryOp_ok_sp (by omega) hb
        refine ⟨?_, ?_, fun _ => ?_⟩ <;>
          dsimp only [StepResult.machine, Machine.step] <;> omega
    | And =>
      rw [exec_And] at h
      unfold execBinary at h
      cases hb : m.binaryOp opAnd with
      | error e => rw [hb] at h; simp at h
      | ok m2 =>
        rw [hb] at h
        dsimp only at h
        injection h with h
        subst h
        obtain ⟨hb0, hb1, hb2, -⟩ := binaryOp_ok_sp (by omega) hb
        refine ⟨?_, ?_, fun _ => ?_⟩ <;>
          dsimp only [StepResult.machine, Machine.step] <;> omega
    | Or =>
      rw [exec_Or] at h
      unfold execBinary at h
      cases hb : m.binaryOp opOr with
      | error e => rw [hb] at h; simp at h
      | ok m2 =>
        rw [hb] at h
        dsimp only at h
        injection h with h
        subst h
        obtain ⟨hb0, hb1, hb2, -⟩ := binaryOp_ok_sp (by omega) hb
        refine ⟨?_, ?_, fun _ => ?_⟩ <;>
          dsimp only [StepResult.machine, Machine.step] <;> omega
    | Xor =>
      rw [exec_Xor] at h
      unfold execBinary at h
      cases hb : m.binaryOp opXor with
      | error e => rw [hb] at h; simp at h
      | ok m2 =>
        rw [hb] at h
        dsimp only at h
        injection h with h
        subst h
        obtain ⟨hb0, hb1, hb2, -⟩ := binaryOp_ok_sp (by omega) hb
        refine ⟨?_, ?_, fun _ => ?_⟩ <;>
          dsimp only [StepResult.machine, Machine.step] <;> omega
    | LogicalLeftShift =>
      rw [exec_LogicalLeftShift] at h
      unfold execBinary at h
      cases hb : m.binaryOp opShl with
      | error e => rw [hb] at h; simp at h
      | ok m2 =>
        rw [hb] at h
        dsimp only at h
        injection h with h
        subst h
        obtain ⟨hb0, hb1, hb2, -⟩ := binaryOp_ok_sp (by omega) hb
        refine ⟨?_, ?_, fun _ => ?_⟩ <;>
          dsimp only [StepResult.machine, Machine.step] <;> omega
    | LogicalRightShift =>
      rw [exec_LogicalRightShift] at h
      unfold execBinary at h
      cases hb : m.binaryOp opShr with
      | error e => rw [hb] at h; simp at h
      | ok m2 =>
        rw [hb] at h
        dsimp only at h
        injection h with h
        subst h
        obtain ⟨hb0, hb1, hb2, -⟩ := binaryOp_ok_sp (by omega) hb
        refine ⟨?_, ?_, fun _ => ?_⟩ <;>
          dsimp only [StepResult.machine, Machine.step] <;> omega
    | ArithmeticRightShift =>
      rw [exec_ArithmeticRightShift] at h
      unfold execBinary at h
      cases hb : m.binaryOp opShr with
      | error e => rw [hb] at h; simp at h
      | ok m2 =>
        rw [hb] at h
        dsimp only at h
        injection h with h
        subst h
        obtain ⟨hb0, hb1, hb2, -⟩ := binaryOp_ok_sp (by omega) hb
        refine ⟨?_, ?_, fun _ => ?_⟩ <;>
          dsimp only [StepResult.machine, Machine.step] <;> omega
    | Negate =>
      rw [exec_Negate] at h
      unfold execUnary at h
      cases hb : m.unaryOp opNeg with
      | error e => rw [hb] at h; simp at h
      | ok m2 =>
        rw [hb] at h
        dsimp only at h
        injection h with h
        subst h
        obtain ⟨hb0, hb1, hb2⟩ := unaryOp_ok_sp (by omega) hb
        refine ⟨?_, ?_, fun _ => ?_⟩ <;>
          dsimp only [StepResult.machine, Machine.step] <;> omega
    | Not =>
      rw [exec_Not] at h
      unfold execUnary at h
      cases hb : m.unaryOp opNot with
      | error e => rw [hb] at h; simp at h
      | ok m2 =>
        rw [hb] at h
        dsimp only at h
        injection h with h
        subst h
        obtain ⟨hb0, hb1, hb2⟩ := unaryOp_ok_sp (by omega) hb
        refine ⟨?_, ?_, fun _ => ?_⟩ <;>
          dsimp only [StepResult.machine, Machine.step] <;> omega

/-- Witness for C2 at a concrete non-Return step: the zero word decodes to
Exit 0, which halts with `sp` unchanged at 1024. -/
theorem C2_sp_bounds_witness :
    0 ≤ (StepResult.halt 0 (initMachine [])).machine.sp ∧
    (StepResult.halt 0 (initMachine [])).machine.sp ≤ 1025 ∧
      ((∀ n, (initMachine []).fetch ≠ .ok (.Return n)) →
        (StepResult.halt 0 (initMachine [])).machine.sp ≤ 1024) :=
  C2_sp_bounds (initMachine []) (.halt 0 (initMachine [])) (by simp [initMachine])
    (by decide) (by decide) (by decide)

/-- Witness for C10 at a concrete machine whose word 0 encodes `Return 0`. -/
theorem C10_return_empty_stack_witness :
    ∃ m', ({ ram := (List.replicate 1024 0).set 0 1610612736, sp := 1024,
             pc := 0, input := [], output := [] } : Machine).runStep =
        .ok (.next m') ∧ m'.sp = 1025 ∧ m'.pc = 0 ∧
      m'.ram = ({ ram := (List.replicate 1024 0).set 0 1610612736, sp := 1024,
                  pc := 0, input := [], output := [] } : Machine).ram ∧
      m'.output = ({ ram := (List.replicate 1024 0).set 0 1610612736,
                     sp := 1024, pc := 0, input := [],
                     output := [] } : Machine).output :=
  C10_return_empty_stack _ 0 (by simp) (by decide) (by decide)

end VMMA
